import Mathlib

/-!
# The caching device allocator of `src/num/gpuops.c`

A shallow embedding of the allocation registry (`cuda_mem_list`) and of the
functions working on it: `search`, `find_free_unsafe`, `find_free`, `insert`,
`cuda_memcache_clear`, `cuda_exit`, `cuda_ondevice`, `cuda_accessible`,
`cuda_free`, `cuda_malloc`, `cuda_hostalloc`, `cuda_hostfree`.

Conventions of the embedding.

* A pointer (`void*`) is its address, a `Nat`; `NULL` is `0`.  The sum
  `rptr->ptr + rptr->len` of a pointer and a `size_t` is taken modulo `2 ^ 64`.
* The linked list `cuda_mem_list` is a `List cuda_mem_s`, head first; the field
  `next` is the position in the list.  A `struct cuda_mem_s*` into the list is
  the index of the node, a `struct cuda_mem_s**` (a link) is an index in
  `0 .. length`, the index `length` being the link that holds `NULL`.
* `long` is `Int`; the conversion to `size_t` is `size_t`, reduction modulo
  `2 ^ 64`.
* The thread-local `last_init` and the value of `omp_get_thread_num()` are the
  two fields of the calling thread's `Thread` context; OpenMP thread numbers
  are `0, 1, ...`, so the latter is a `Nat`, stored in a record as an `int`.
* Calls are executed one after the other (the `omp critical` sections are
  not modelled); a call that does not return yields a `Fault`.
* The CUDA runtime is outside the program: the result of `cudaMalloc` /
  `cudaHostAlloc` is a parameter of the call, and each call into the runtime
  that allocates or releases memory is appended to the log `Mem.calls`.
-/

namespace Gpuops

/-- Ways in which a call ends without returning. -/
inductive Fault where
  /-- a failing `assert(...)` -/
  | assertion
  /-- `CUDA_ERROR(x)` with `x` different from `cudaSuccess` -/
  | cudaError
  /-- `abort()` -/
  | abort
  /-- a field access through a `NULL` record pointer -/
  | nullDeref
  deriving DecidableEq, Repr

deriving instance DecidableEq for Except

/-- The record `struct cuda_mem_s` (without `next`, which is the list order). -/
structure cuda_mem_s where
  ptr : Nat
  len : Nat
  device : Bool
  free : Bool
  device_id : Int
  thread_id : Int
  deriving DecidableEq, Repr

/-- Calls into the CUDA runtime that allocate or release memory. -/
inductive DevCall where
  | cudaMalloc (size : Nat) (ret : Nat)
  | cudaFree (ptr : Nat)
  | cudaHostAlloc (size : Nat) (ret : Nat)
  | cudaFreeHost (ptr : Nat)
  deriving DecidableEq, Repr

/-- The process-wide state: the registry `cuda_mem_list`, the flag
`cuda_memcache`, and the log of runtime calls made so far (oldest first). -/
structure Mem where
  cuda_mem_list : List cuda_mem_s
  cuda_memcache : Bool
  calls : List DevCall
  deriving DecidableEq, Repr

/-- The calling thread: its thread-local `last_init` and the value that
`omp_get_thread_num()` returns in it (a thread number, never negative). -/
structure Thread where
  last_init : Int
  thread_num : Nat
  deriving DecidableEq, Repr

/-- The state at program start: `cuda_mem_list = NULL`, `cuda_memcache = true`. -/
def Mem.init : Mem :=
  { cuda_mem_list := [], cuda_memcache := true, calls := [] }

/-- Conversion of a `long` to `size_t` (64 bit). -/
def size_t (n : Int) : Nat :=
  (n % (2 : Int) ^ 64).toNat

/-- Modelled from the spec: `error` of `misc/misc.h`, which the macro
`CUDA_ERROR` calls through `cuda_error`, is not among the sources; by §7 of
the specification a `DeviceError` / `AllocationError` is fatal to the calling
operation, so a runtime call that fails (`none`) ends the call with
`Fault.cudaError`. -/
def CUDA_ERROR {α : Type} (x : Option α) : Except Fault α :=
  match x with
  | some a => Except.ok a
  | none => Except.error Fault.cudaError

/-- `inside_p`: the address lies in the half-open range of the record.  The
end of the range, `rptr->ptr + rptr->len`, is computed in 64 bits. -/
def inside_p (rptr : cuda_mem_s) (ptr : Nat) : Bool :=
  decide (ptr ≥ rptr.ptr) && decide (ptr < (rptr.ptr + rptr.len) % 2 ^ 64)

/-- `search`: walks the list to the first record containing `ptr`; with
`remove` the record is unlinked.  Returns the node found (its index in the
list before the call, and its contents) and the list after the call. -/
def search (l : List cuda_mem_s) (ptr : Nat) (remove : Bool) :
    Option (Nat × cuda_mem_s) × List cuda_mem_s :=
  match l with
  | [] => (none, [])
  | rptr :: next =>
    if inside_p rptr ptr then
      (some (0, rptr), if remove then next else rptr :: next)
    else
      let res := search next ptr remove
      (res.1.map (fun f => (f.1 + 1, f.2)), rptr :: res.2)

/-- `free_check_p`; the thread-local `last_init` is a parameter. -/
def free_check_p (last_init : Int) (rptr : cuda_mem_s) (size : Nat) (tid : Int) : Bool :=
  rptr.free && decide (rptr.device_id = last_init) && decide (rptr.len ≥ size)
    && (decide (-1 = tid) || decide (rptr.thread_id = tid))

/-- `find_free_unsafe`: the link (`nptr`) at which the walk stops, as an index:
the index of the first record passing `free_check_p`, or the length of the
list (the link holding `NULL`) when the walk reaches the end. -/
def find_free_unsafe (last_init : Int) (l : List cuda_mem_s) (size : Nat) (tid : Int) : Nat :=
  match l with
  | [] => 0
  | rptr :: next =>
    if free_check_p last_init rptr size tid then 0
    else find_free_unsafe last_init next size tid + 1

/-- `find_free`: dereferences the link of `find_free_unsafe(size, -1)`; a record
found gets `free = false`.  Returns the node found (index, contents after the
write) and the list after the call. -/
def find_free (th : Thread) (l : List cuda_mem_s) (size : Nat) :
    Option (Nat × cuda_mem_s) × List cuda_mem_s :=
  let nptr := find_free_unsafe th.last_init l size (-1)
  match l[nptr]? with
  | none => (none, l)
  | some rptr =>
    let rptr' := { rptr with free := false }
    (some (nptr, rptr'), l.set nptr rptr')

/-- `insert`: a new record at the head of the list. -/
def insert (th : Thread) (l : List cuda_mem_s) (ptr : Nat) (len : Nat) (device : Bool) :
    List cuda_mem_s :=
  { ptr := ptr, len := len, device := device, device_id := th.last_init,
    thread_id := th.thread_num, free := false } :: l

/-- The `do ... while (NULL != nptr)` loop of `cuda_memcache_clear`, on the
list and the log of runtime calls; `turns` counts the executions of the loop
body (it is not a variable of the program). -/
def cuda_memcache_clear_loop (th : Thread) (l : List cuda_mem_s) (calls : List DevCall)
    (turns : Nat) : Except Fault (List cuda_mem_s × List DevCall × Nat) :=
  let rptr := find_free_unsafe th.last_init l 0 th.thread_num
  match h : l[rptr]? with
  | none => Except.ok (l, calls, turns + 1)
  | some nptr =>
    if !nptr.device then Except.error Fault.assertion
    else cuda_memcache_clear_loop th (l.eraseIdx rptr) (calls ++ [DevCall.cudaFree nptr.ptr])
      (turns + 1)
termination_by l.length
decreasing_by
  have hlt : rptr < l.length := by
    rcases Nat.lt_or_ge rptr l.length with h1 | h1
    · exact h1
    · rw [List.getElem?_eq_none h1] at h
      cases h
  rw [List.length_eraseIdx, if_pos hlt]
  omega

/-- `cuda_memcache_clear`. -/
def cuda_memcache_clear (th : Thread) (m : Mem) : Except Fault Mem :=
  if !m.cuda_memcache then Except.ok m
  else
    match cuda_memcache_clear_loop th m.cuda_mem_list m.calls 0 with
    | Except.error e => Except.error e
    | Except.ok (l, calls, _) => Except.ok { m with cuda_mem_list := l, calls := calls }

/-- `cuda_exit`; `cudaThreadExit` is whether the runtime call of that name
succeeds. -/
def cuda_exit (cudaThreadExit : Bool) (th : Thread) (m : Mem) : Except Fault Mem :=
  match cuda_memcache_clear th m with
  | Except.error e => Except.error e
  | Except.ok m' =>
    match CUDA_ERROR (if cudaThreadExit then some () else none) with
    | Except.error e => Except.error e
    | Except.ok _ => Except.ok m'

/-- `cuda_ondevice`. -/
def cuda_ondevice (m : Mem) (ptr : Nat) : Bool :=
  if ptr = 0 then false
  else
    match (search m.cuda_mem_list ptr false).1 with
    | none => false
    | some p => p.2.device

/-- `cuda_accessible` (the `#if 1` branch). -/
def cuda_accessible (m : Mem) (ptr : Nat) : Bool :=
  match (search m.cuda_mem_list ptr false).1 with
  | none => false
  | some _ => true

/-- `cuda_free`. -/
def cuda_free (m : Mem) (ptr : Nat) : Except Fault Mem :=
  match search m.cuda_mem_list ptr (!m.cuda_memcache) with
  | (none, _) => Except.error Fault.assertion
  | (some nptr, l) =>
    if nptr.2.ptr ≠ ptr then Except.error Fault.assertion
    else if !nptr.2.device then Except.error Fault.assertion
    else if m.cuda_memcache then
      if nptr.2.free then Except.error Fault.assertion
      else Except.ok { m with cuda_mem_list := l.set nptr.1 { nptr.2 with free := true } }
    else
      Except.ok { m with cuda_mem_list := l, calls := m.calls ++ [DevCall.cudaFree ptr] }

/-- `cuda_malloc`; `cudaMalloc` gives, for a size in bytes, the address the
runtime's allocator returns (`none`: the runtime reports an error).  Returns
the address and the state after the call. -/
def cuda_malloc (cudaMalloc : Nat → Option Nat) (th : Thread) (m : Mem) (size : Int) :
    Except Fault (Nat × Mem) :=
  let found :=
    if m.cuda_memcache then find_free th m.cuda_mem_list (size_t size)
    else (none, m.cuda_mem_list)
  match found with
  | (some nptr, l) =>
    if !nptr.2.device then Except.error Fault.assertion
    else if nptr.2.free then Except.error Fault.assertion
    else
      Except.ok (nptr.2.ptr,
        { m with cuda_mem_list := l.set nptr.1 { nptr.2 with thread_id := th.thread_num } })
  | (none, l) =>
    match CUDA_ERROR (cudaMalloc (size_t size)) with
    | Except.error e => Except.error e
    | Except.ok ptr =>
      Except.ok (ptr,
        { m with cuda_mem_list := insert th l ptr (size_t size) true,
                 calls := m.calls ++ [DevCall.cudaMalloc (size_t size) ptr] })

/-- `cuda_hostalloc`; `cudaHostAlloc` as `cudaMalloc` in `cuda_malloc`. -/
def cuda_hostalloc (cudaHostAlloc : Nat → Option Nat) (th : Thread) (m : Mem) (N : Int) :
    Except Fault (Nat × Mem) :=
  match cudaHostAlloc (size_t N) with
  | none => Except.error Fault.abort
  | some ptr =>
    Except.ok (ptr,
      { m with cuda_mem_list := insert th m.cuda_mem_list ptr (size_t N) false,
               calls := m.calls ++ [DevCall.cudaHostAlloc (size_t N) ptr] })

/-- `cuda_hostfree`. -/
def cuda_hostfree (m : Mem) (ptr : Nat) : Except Fault Mem :=
  match search m.cuda_mem_list ptr true with
  | (none, _) => Except.error Fault.nullDeref
  | (some nptr, l) =>
    if nptr.2.ptr ≠ ptr then Except.error Fault.assertion
    else if nptr.2.device then Except.error Fault.assertion
    else Except.ok { m with cuda_mem_list := l, calls := m.calls ++ [DevCall.cudaFreeHost ptr] }

/-- `cuda_init`; `cudaSetDevice` is whether the runtime call succeeds.
`last_init` is written before the runtime is called. -/
def cuda_init (cudaSetDevice : Bool) (th : Thread) (device : Int) : Except Fault Thread :=
  let th' := { th with last_init := device }
  match CUDA_ERROR (if cudaSetDevice then some () else none) with
  | Except.error e => Except.error e
  | Except.ok _ => Except.ok th'

/-- `cuda_memcache_off`. -/
def cuda_memcache_off (th : Thread) (m : Mem) : Except Fault Mem :=
  if -1 ≠ th.last_init then Except.error Fault.assertion
  else Except.ok { m with cuda_memcache := false }

/-- States reached from the program start by `cuda_malloc` and `cuda_free`
calls that return, the runtime's allocator returning at each `cuda_malloc` an
address that is the `ptr` of no registered record. -/
inductive MallocFreeReachable : Mem → Prop where
  | init : MallocFreeReachable Mem.init
  | malloc {m m' : Mem} (cudaMalloc : Nat → Option Nat) (th : Thread) (size : Int) (p : Nat) :
      MallocFreeReachable m →
      (∀ q, cudaMalloc (size_t size) = some q → ∀ r ∈ m.cuda_mem_list, r.ptr ≠ q) →
      cuda_malloc cudaMalloc th m size = Except.ok (p, m') →
      MallocFreeReachable m'
  | free {m m' : Mem} (ptr : Nat) :
      MallocFreeReachable m →
      cuda_free m ptr = Except.ok m' →
      MallocFreeReachable m'

/-- Every call of a sequence of `cuda_malloc` calls by the thread `th`, each
given with its size and the runtime's allocator at that moment, is a cache
miss: the call asks the runtime for `size` bytes; when the runtime reports an
error the call ends with it, otherwise the call returns the runtime's address
and inserts a new record for it, and the rest of the sequence runs from that
state. -/
def AllMisses (th : Thread) : Mem → List (Int × (Nat → Option Nat)) → Prop
  | _, [] => True
  | m, (size, cudaMalloc) :: rest =>
    match cudaMalloc (size_t size) with
    | none => cuda_malloc cudaMalloc th m size = Except.error Fault.cudaError
    | some p =>
      cuda_malloc cudaMalloc th m size = Except.ok (p,
        { m with cuda_mem_list := insert th m.cuda_mem_list p (size_t size) true,
                 calls := m.calls ++ [DevCall.cudaMalloc (size_t size) p] }) ∧
      AllMisses th
        { m with cuda_mem_list := insert th m.cuda_mem_list p (size_t size) true,
                 calls := m.calls ++ [DevCall.cudaMalloc (size_t size) p] } rest

/-- The range `[q, q + n)` that an allocator returns meets the range of no
record of the list. -/
def RangeFree (l : List cuda_mem_s) (q n : Nat) : Prop :=
  ∀ r ∈ l, ∀ x, ¬ (inside_p r x = true ∧ q ≤ x ∧ x < q + n)

/-- Nothing is assumed of the range an allocator returns. -/
def AnyRange (_l : List cuda_mem_s) (_q _n : Nat) : Prop :=
  True

/-- States reached from the program start (caching enabled) by calls of
`cuda_malloc`, `cuda_free`, `cuda_hostalloc`, `cuda_hostfree`,
`cuda_memcache_clear` and `cuda_init` that return.  Every call is made by some
thread with some `last_init`; `cuda_init` writes `last_init` only, which is not
part of `Mem`, so it leaves the state as it is and later calls may be made
with the thread it returns.  `fresh l q n` is what is assumed of the runtime's
allocators when, the registry being `l`, they return the address `q` for `n`
bytes. -/
inductive Reachable (fresh : List cuda_mem_s → Nat → Nat → Prop) : Mem → Prop where
  | init : Reachable fresh Mem.init
  | malloc {m m' : Mem} (cudaMalloc : Nat → Option Nat) (th : Thread) (size : Int) (p : Nat) :
      Reachable fresh m →
      (∀ q, cudaMalloc (size_t size) = some q → fresh m.cuda_mem_list q (size_t size)) →
      cuda_malloc cudaMalloc th m size = Except.ok (p, m') →
      Reachable fresh m'
  | free {m m' : Mem} (ptr : Nat) :
      Reachable fresh m →
      cuda_free m ptr = Except.ok m' →
      Reachable fresh m'
  | hostalloc {m m' : Mem} (cudaHostAlloc : Nat → Option Nat) (th : Thread) (N : Int)
      (p : Nat) :
      Reachable fresh m →
      (∀ q, cudaHostAlloc (size_t N) = some q → fresh m.cuda_mem_list q (size_t N)) →
      cuda_hostalloc cudaHostAlloc th m N = Except.ok (p, m') →
      Reachable fresh m'
  | hostfree {m m' : Mem} (ptr : Nat) :
      Reachable fresh m →
      cuda_hostfree m ptr = Except.ok m' →
      Reachable fresh m'
  | clear {m m' : Mem} (th : Thread) :
      Reachable fresh m →
      cuda_memcache_clear th m = Except.ok m' →
      Reachable fresh m'
  | device {m : Mem} (cudaSetDevice : Bool) (th th' : Thread) (device : Int) :
      Reachable fresh m →
      cuda_init cudaSetDevice th device = Except.ok th' →
      Reachable fresh m

/-- The half-open range of a record: base address and length. -/
def range (r : cuda_mem_s) : Nat × Nat :=
  (r.ptr, r.len)

/-- Two ranges, each given by base address and length and with its end computed
in 64 bits as in `inside_p`, have no address in common. -/
def DisjointRanges (a b : Nat × Nat) : Prop :=
  ∀ x, ¬ ((a.1 ≤ x ∧ x < (a.1 + a.2) % 2 ^ 64) ∧ (b.1 ≤ x ∧ x < (b.1 + b.2) % 2 ^ 64))

/-- The records that the sweep of the thread `th` is to take: free, of the
active device of `th`, and with `thread_id` the thread number of `th`. -/
def swept (th : Thread) (r : cuda_mem_s) : Bool :=
  r.free && decide (r.device_id = th.last_init) && decide (r.thread_id = (th.thread_num : Int))

/-! ## The walk of `find_free_unsafe` -/

theorem free_check_p_iff (last_init : Int) (r : cuda_mem_s) (size : Nat) (tid : Int) :
    free_check_p last_init r size tid = true ↔
      (r.free = true ∧ r.device_id = last_init ∧ size ≤ r.len ∧
        (tid = -1 ∨ r.thread_id = tid)) := by
  unfold free_check_p
  simp only [Bool.and_eq_true, Bool.or_eq_true, decide_eq_true_eq, ge_iff_le]
  constructor
  · rintro ⟨⟨⟨h1, h2⟩, h3⟩, h4⟩
    exact ⟨h1, h2, h3, h4.imp (fun h => h.symm) id⟩
  · rintro ⟨h1, h2, h3, h4⟩
    exact ⟨⟨⟨h1, h2⟩, h3⟩, h4.imp (fun h => h.symm) id⟩

theorem find_free_unsafe_le (last_init : Int) (l : List cuda_mem_s) (size : Nat) (tid : Int) :
    find_free_unsafe last_init l size tid ≤ l.length := by
  induction l with
  | nil => simp [ find_free_unsafe]
  | cons r rest ih =>
    unfold find_free_unsafe
    split
    · simp
    · simpa using ih

theorem find_free_unsafe_before (last_init : Int) (l : List cuda_mem_s) (size : Nat) (tid : Int) :
    ∀ j, j < find_free_unsafe last_init l size tid → ∀ r, l[j]? = some r →
      free_check_p last_init r size tid = false := by
  induction l with
  | nil => intro j hj; simp [ find_free_unsafe] at hj
  | cons a rest ih =>
    intro j hj r hr
    unfold find_free_unsafe at hj
    split at hj
    · omega
    · rename_i hc
      cases j with
      | zero =>
        simp only [List.getElem?_cons_zero, Option.some.injEq] at hr
        subst hr
        simpa using hc
      | succ k =>
        simp only [List.getElem?_cons_succ] at hr
        exact ih k (by omega) r hr

theorem find_free_unsafe_some (last_init : Int) (l : List cuda_mem_s) (size : Nat) (tid : Int)
    (r : cuda_mem_s) (h : l[ find_free_unsafe last_init l size tid]? = some r) :
    free_check_p last_init r size tid = true := by
  induction l with
  | nil => simp [ find_free_unsafe] at h
  | cons a rest ih =>
    unfold find_free_unsafe at h
    split at h
    · rename_i hc
      simp only [List.getElem?_cons_zero, Option.some.injEq] at h
      subst h
      exact hc
    · simp only [List.getElem?_cons_succ] at h
      exact ih h

theorem find_free_unsafe_none (last_init : Int) (l : List cuda_mem_s) (size : Nat) (tid : Int)
    (h : l[ find_free_unsafe last_init l size tid]? = none) :
    ∀ r ∈ l, free_check_p last_init r size tid = false := by
  induction l with
  | nil => simp
  | cons a rest ih =>
    unfold find_free_unsafe at h
    split at h
    · simp at h
    · rename_i hc
      simp only [List.getElem?_cons_succ] at h
      intro r hr
      rcases List.mem_cons.mp hr with rfl | hr
      · simpa using hc
      · exact ih h r hr

theorem find_free_unsafe_of_all_false (last_init : Int) (l : List cuda_mem_s) (size : Nat)
    (tid : Int) (h : ∀ r ∈ l, free_check_p last_init r size tid = false) :
    l[ find_free_unsafe last_init l size tid]? = none := by
  cases hg : l[ find_free_unsafe last_init l size tid]? with
  | none => rfl
  | some r =>
    have h1 := find_free_unsafe_some last_init l size tid r hg
    have h2 := h r (List.getElem?_mem hg)
    rw [h1] at h2
    cases h2

/-- One turn of the loop of `cuda_memcache_clear`. -/
theorem cuda_memcache_clear_loop_eq (th : Thread) (l : List cuda_mem_s) (calls : List DevCall)
    (turns : Nat) :
    cuda_memcache_clear_loop th l calls turns =
      match l[ find_free_unsafe th.last_init l 0 th.thread_num]? with
      | none => Except.ok (l, calls, turns + 1)
      | some nptr =>
        if !nptr.device then Except.error Fault.assertion
        else cuda_memcache_clear_loop th
          (l.eraseIdx ( find_free_unsafe th.last_init l 0 th.thread_num))
          (calls ++ [DevCall.cudaFree nptr.ptr]) (turns + 1) := by
  rw [cuda_memcache_clear_loop]
  split <;> rename_i h <;> simp only [h]

/-! ## The loop of `cuda_memcache_clear` -/

/-- Unlinking the record at which `find_free_unsafe` stops: the records that
do not pass `free_check_p` are those of the list before, the records that pass
are the unlinked one followed by those that remain. -/
theorem filter_eraseIdx_find_free_unsafe (last_init : Int) (l : List cuda_mem_s) (size : Nat)
    (tid : Int) (r : cuda_mem_s)
    (h : l[ find_free_unsafe last_init l size tid]? = some r) :
    l.filter (fun x => !free_check_p last_init x size tid)
        = (l.eraseIdx ( find_free_unsafe last_init l size tid)).filter
            (fun x => !free_check_p last_init x size tid) ∧
      l.filter (fun x => free_check_p last_init x size tid)
        = r :: (l.eraseIdx ( find_free_unsafe last_init l size tid)).filter
            (fun x => free_check_p last_init x size tid) := by
  induction l with
  | nil => simp [ find_free_unsafe] at h
  | cons a rest ih =>
    unfold find_free_unsafe at h ⊢
    by_cases hc : free_check_p last_init a size tid = true
    · simp only [hc, if_true, List.getElem?_cons_zero, Option.some.injEq] at h
      subst h
      simp [hc]
    · simp only [hc, Bool.false_eq_true, if_false, List.getElem?_cons_succ] at h
      obtain ⟨h1, h2⟩ := ih h
      simp only [hc, Bool.false_eq_true, if_false, List.eraseIdx_cons_succ]
      have hc' : free_check_p last_init a size tid = false := by simpa using hc
      constructor
      · rw [List.filter_cons_of_pos (by simp [hc']), List.filter_cons_of_pos (by simp [hc']), h1]
      · rw [List.filter_cons_of_neg (by simp [hc']), List.filter_cons_of_neg (by simp [hc']), h2]

/-- The loop of `cuda_memcache_clear` in closed form: it fails the assertion
when a record it takes is not a device record; otherwise it ends with the
records that do not pass `free_check_p(., 0, thread_num)`, in their order, has
called `cudaFree` on the address of each record that passes, in list order,
and has executed its body once per such record and once more. -/
theorem cuda_memcache_clear_loop_spec (th : Thread) :
    ∀ (n : Nat) (l : List cuda_mem_s) (calls : List DevCall) (turns : Nat), l.length = n →
      cuda_memcache_clear_loop th l calls turns =
        if (l.filter (fun x => free_check_p th.last_init x 0 th.thread_num)).all
            (fun x => x.device) then
          Except.ok
            (l.filter (fun x => !free_check_p th.last_init x 0 th.thread_num),
              calls ++ (l.filter (fun x => free_check_p th.last_init x 0 th.thread_num)).map
                (fun x => DevCall.cudaFree x.ptr),
              turns + (l.filter (fun x => free_check_p th.last_init x 0 th.thread_num)).length
                + 1)
        else Except.error Fault.assertion := by
  intro n
  induction n with
  | zero =>
    intro l calls turns hl
    have : l = [] := List.length_eq_zero.mp hl
    subst this
    rw [cuda_memcache_clear_loop_eq]
    simp [ find_free_unsafe]
  | succ k ih =>
    intro l calls turns hl
    rw [cuda_memcache_clear_loop_eq]
    cases hg : l[ find_free_unsafe th.last_init l 0 th.thread_num]? with
    | none =>
      have hall := find_free_unsafe_none _ _ _ _ hg
      have hnil : l.filter (fun x => free_check_p th.last_init x 0 th.thread_num) = [] := by
        rw [List.filter_eq_nil_iff]
        intro a ha
        simp [hall a ha]
      have hself : l.filter (fun x => !free_check_p th.last_init x 0 th.thread_num) = l := by
        rw [List.filter_eq_self]
        intro a ha
        simp [hall a ha]
      simp [hnil, hself]
    | some r =>
      obtain ⟨h1, h2⟩ := filter_eraseIdx_find_free_unsafe _ _ _ _ r hg
      have hlt : find_free_unsafe th.last_init l 0 th.thread_num < l.length :=
        (List.getElem?_eq_some.mp hg).1
      have hlen : (l.eraseIdx ( find_free_unsafe th.last_init l 0 th.thread_num)).length = k := by
        rw [List.length_eraseIdx, if_pos hlt]
        omega
      simp only
      rw [h1, h2]
      cases hd : r.device with
      | false => simp [hd]
      | true =>
        simp only [Bool.not_true, Bool.false_eq_true, if_false, List.all_cons, hd, Bool.true_and,
          List.map_cons, List.length_cons]
        rw [ih _ _ _ hlen]
        simp only [List.append_assoc, List.singleton_append]
        have : turns + 1 + (List.filter (fun x => free_check_p th.last_init x 0 th.thread_num)
              (l.eraseIdx ( find_free_unsafe th.last_init l 0 th.thread_num))).length + 1
            = turns + ((List.filter (fun x => free_check_p th.last_init x 0 th.thread_num)
              (l.eraseIdx ( find_free_unsafe th.last_init l 0 th.thread_num))).length + 1) + 1 := by
          omega
        rw [this]

/-- `cuda_memcache_clear` with caching enabled, in closed form. -/
theorem cuda_memcache_clear_spec (th : Thread) (m : Mem) (hc : m.cuda_memcache = true) :
    cuda_memcache_clear th m =
      if (m.cuda_mem_list.filter (fun x => free_check_p th.last_init x 0 th.thread_num)).all
          (fun x => x.device) then
        Except.ok
          { m with
            cuda_mem_list :=
              (m.cuda_mem_list.filter (fun x => !free_check_p th.last_init x 0 th.thread_num)),
            calls :=
              (m.calls ++
                (m.cuda_mem_list.filter
                  (fun x => free_check_p th.last_init x 0 th.thread_num)).map
                  (fun x => DevCall.cudaFree x.ptr)) }
      else Except.error Fault.assertion := by
  unfold cuda_memcache_clear
  rw [cuda_memcache_clear_loop_spec th _ _ _ _ rfl]
  cases hall : (m.cuda_mem_list.filter
      (fun x => free_check_p th.last_init x 0 th.thread_num)).all (fun x => x.device) <;>
    simp [hc]

/-! ## The walk of `search` -/

theorem search_snd_of_not_remove (l : List cuda_mem_s) (ptr : Nat) :
    (search l ptr false).2 = l := by
  induction l with
  | nil => rfl
  | cons a rest ih =>
    unfold search
    split
    · simp
    · simp [ih]

theorem search_fst_some (l : List cuda_mem_s) (ptr : Nat) (remove : Bool) :
    ∀ (i : Nat) (r : cuda_mem_s), (search l ptr remove).1 = some (i, r) →
      l[i]? = some r ∧ inside_p r ptr = true ∧
        ∀ j, j < i → ∀ r', l[j]? = some r' → inside_p r' ptr = false := by
  induction l with
  | nil => intro i r h; simp [search] at h
  | cons a rest ih =>
    intro i r h
    unfold search at h
    split at h
    · rename_i hc
      simp only [Option.some.injEq, Prod.mk.injEq] at h
      obtain ⟨rfl, rfl⟩ := h
      refine ⟨by simp, hc, ?_⟩
      intro j hj
      omega
    · rename_i hc
      simp only [Option.map_eq_some', Prod.mk.injEq] at h
      obtain ⟨⟨k, r0⟩, hk, rfl, rfl⟩ := h
      obtain ⟨h1, h2, h3⟩ := ih k r0 hk
      refine ⟨by simpa using h1, h2, ?_⟩
      intro j hj r' hr'
      cases j with
      | zero =>
        simp only [List.getElem?_cons_zero, Option.some.injEq] at hr'
        subst hr'
        simpa using hc
      | succ j' =>
        simp only [List.getElem?_cons_succ] at hr'
        exact h3 j' (by omega) r' hr'

theorem search_fst_none (l : List cuda_mem_s) (ptr : Nat) (remove : Bool) :
    (search l ptr remove).1 = none ↔ ∀ r ∈ l, inside_p r ptr = false := by
  induction l with
  | nil => simp [search]
  | cons a rest ih =>
    unfold search
    split
    · rename_i hc
      simp only [reduceCtorEq, List.mem_cons, forall_eq_or_imp, false_iff, not_and]
      intro h
      rw [hc] at h
      cases h
    · rename_i hc
      simp only [Option.map_eq_none', List.mem_cons, forall_eq_or_imp]
      rw [ih]
      constructor
      · intro h
        exact ⟨by simpa using hc, h⟩
      · intro h
        exact h.2

theorem search_fst_eq (l : List cuda_mem_s) (ptr : Nat) (remove : Bool) :
    ∀ (i : Nat) (r : cuda_mem_s), l[i]? = some r → inside_p r ptr = true →
      (∀ j, j < i → ∀ r', l[j]? = some r' → inside_p r' ptr = false) →
      (search l ptr remove).1 = some (i, r) := by
  induction l with
  | nil => intro i r h; simp at h
  | cons a rest ih =>
    intro i r hi hin hbefore
    cases i with
    | zero =>
      simp only [List.getElem?_cons_zero, Option.some.injEq] at hi
      subst hi
      simp only [search, hin, if_true]
    | succ k =>
      simp only [List.getElem?_cons_succ] at hi
      have ha : inside_p a ptr = false := hbefore 0 (by omega) a (by simp)
      have hrec := ih k r hi hin (fun j hj r' hr' => hbefore (j + 1) (by omega) r' (by simpa using hr'))
      simp only [search, ha, Bool.false_eq_true, if_false, hrec, Option.map_some']

/-! ## What a returning `cuda_free` / `cuda_malloc` did -/

theorem cuda_free_cache_ok (m m' : Mem) (ptr : Nat) (hc : m.cuda_memcache = true)
    (h : cuda_free m ptr = Except.ok m') :
    ∃ i r, (search m.cuda_mem_list ptr false).1 = some (i, r) ∧ r.ptr = ptr ∧
      r.device = true ∧ r.free = false ∧
      m' = { m with cuda_mem_list := m.cuda_mem_list.set i { r with free := true } } := by
  unfold cuda_free at h
  rw [hc] at h
  simp only [Bool.not_true] at h
  have hs := search_snd_of_not_remove m.cuda_mem_list ptr
  split at h
  · cases h
  · rename_i nptr l heq
    rw [heq] at hs
    simp only at hs
    subst hs
    split at h
    · cases h
    · rename_i hp
      split at h
      · cases h
      · rename_i hd
        simp only [if_true] at h
        split at h
        · cases h
        · rename_i hf
          refine ⟨nptr.1, nptr.2, ?_, ?_, ?_, ?_, ?_⟩
          · rw [heq]
          · simpa using hp
          · simpa using hd
          · simpa using hf
          · simp only [Except.ok.injEq] at h
            rw [hc]
            exact h.symm

theorem cuda_malloc_cache_ok (cudaMalloc : Nat → Option Nat) (th : Thread) (m m' : Mem)
    (size : Int) (p : Nat) (hc : m.cuda_memcache = true)
    (h : cuda_malloc cudaMalloc th m size = Except.ok (p, m')) :
    (∃ r, m.cuda_mem_list[ find_free_unsafe th.last_init m.cuda_mem_list (size_t size) (-1)]?
          = some r ∧ r.device = true ∧ p = r.ptr ∧
        m' = { m with cuda_mem_list :=
                (List.set m.cuda_mem_list
                  ( find_free_unsafe th.last_init m.cuda_mem_list (size_t size) (-1))
                  { r with free := false, thread_id := th.thread_num }) }) ∨
    (m.cuda_mem_list[ find_free_unsafe th.last_init m.cuda_mem_list (size_t size) (-1)]? = none ∧
      cudaMalloc (size_t size) = some p ∧
      m' = { m with cuda_mem_list := insert th m.cuda_mem_list p (size_t size) true,
                    calls := m.calls ++ [DevCall.cudaMalloc (size_t size) p] }) := by
  unfold cuda_malloc at h
  rw [hc] at h
  simp only [if_true] at h
  unfold find_free at h
  dsimp only at h
  cases hg : m.cuda_mem_list[ find_free_unsafe th.last_init m.cuda_mem_list (size_t size) (-1)]? with
  | none =>
    right
    rw [hg] at h
    simp only at h
    cases hm : cudaMalloc (size_t size) with
    | none => rw [hm] at h; simp [CUDA_ERROR] at h
    | some q =>
      rw [hm] at h
      simp only [CUDA_ERROR, Except.ok.injEq, Prod.mk.injEq] at h
      obtain ⟨rfl, rfl⟩ := h
      rw [hc]
      exact ⟨rfl, rfl, rfl⟩
  | some r =>
    left
    rw [hg] at h
    simp only at h
    split at h
    · cases h
    · rename_i hd
      simp only [Bool.false_eq_true, if_false, Except.ok.injEq, Prod.mk.injEq] at h
      obtain ⟨rfl, rfl⟩ := h
      refine ⟨r, rfl, by simpa using hd, rfl, ?_⟩
      rw [hc]
      simp [List.set_set]

theorem cuda_malloc_hit (cudaMalloc : Nat → Option Nat) (th : Thread) (m : Mem) (size : Int)
    (r : cuda_mem_s) (hc : m.cuda_memcache = true)
    (hg : m.cuda_mem_list[ find_free_unsafe th.last_init m.cuda_mem_list (size_t size) (-1)]?
      = some r)
    (hd : r.device = true) :
    cuda_malloc cudaMalloc th m size = Except.ok (r.ptr,
      { m with cuda_mem_list :=
          (List.set m.cuda_mem_list
            ( find_free_unsafe th.last_init m.cuda_mem_list (size_t size) (-1))
            { r with free := false, thread_id := th.thread_num }) }) := by
  unfold cuda_malloc find_free
  simp [hc, hg, hd, List.set_set]

theorem cuda_malloc_miss (cudaMalloc : Nat → Option Nat) (th : Thread) (m : Mem) (size : Int)
    (p : Nat)
    (hg : m.cuda_mem_list[ find_free_unsafe th.last_init m.cuda_mem_list (size_t size) (-1)]?
      = none)
    (hm : cudaMalloc (size_t size) = some p) :
    cuda_malloc cudaMalloc th m size = Except.ok (p,
      { m with cuda_mem_list := insert th m.cuda_mem_list p (size_t size) true,
               calls := m.calls ++ [DevCall.cudaMalloc (size_t size) p] }) := by
  unfold cuda_malloc find_free
  cases hcache : m.cuda_memcache <;> simp [hg, hm, CUDA_ERROR]

theorem cuda_free_cache (m : Mem) (ptr i : Nat) (r : cuda_mem_s) (hc : m.cuda_memcache = true)
    (hs : (search m.cuda_mem_list ptr false).1 = some (i, r)) (hp : r.ptr = ptr)
    (hd : r.device = true) (hf : r.free = false) :
    cuda_free m ptr
      = Except.ok { m with cuda_mem_list := m.cuda_mem_list.set i { r with free := true } } := by
  have h2 := search_snd_of_not_remove m.cuda_mem_list ptr
  unfold cuda_free
  rw [hc]
  simp only [Bool.not_true]
  have hpair : search m.cuda_mem_list ptr false = (some (i, r), m.cuda_mem_list) :=
    Prod.ext hs h2
  rw [hpair]
  simp [hp, hd, hf]

theorem map_ptr_set (l : List cuda_mem_s) (i : Nat) (r r' : cuda_mem_s) (h : l[i]? = some r)
    (hp : r'.ptr = r.ptr) : (l.set i r').map (fun x => x.ptr) = l.map (fun x => x.ptr) := by
  induction l generalizing i with
  | nil => simp
  | cons a rest ih =>
    cases i with
    | zero =>
      simp only [List.getElem?_cons_zero, Option.some.injEq] at h
      subst h
      simp [hp]
    | succ k =>
      simp only [List.getElem?_cons_succ] at h
      simp [ih k h]

/-! ## Sequences of `cuda_malloc` / `cuda_free` -/

theorem MallocFreeReachable.inv {m : Mem} (h : MallocFreeReachable m) :
    m.cuda_memcache = true ∧ (m.cuda_mem_list.map (fun x => x.ptr)).Nodup := by
  induction h with
  | init => exact ⟨rfl, by simp [Mem.init]⟩
  | malloc cudaMalloc th size p _ hfresh hcall ih =>
    obtain ⟨hc, hn⟩ := ih
    rcases cuda_malloc_cache_ok cudaMalloc th _ _ size p hc hcall with
      ⟨r, hg, _, _, rfl⟩ | ⟨_, hm, rfl⟩
    · refine ⟨hc, ?_⟩
      convert hn using 1
      exact map_ptr_set _ _ r _ hg rfl
    · refine ⟨hc, ?_⟩
      simp only [insert, List.map_cons, List.nodup_cons]
      refine ⟨?_, hn⟩
      intro hmem
      obtain ⟨r, hr, hrp⟩ := List.mem_map.mp hmem
      exact hfresh p hm r hr hrp
  | free ptr _ hcall ih =>
    obtain ⟨hc, hn⟩ := ih
    obtain ⟨i, r, hs, _, _, _, rfl⟩ := cuda_free_cache_ok _ _ ptr hc hcall
    refine ⟨hc, ?_⟩
    convert hn using 1
    exact map_ptr_set _ _ r _ (search_fst_some _ _ _ i r hs).1 rfl

theorem find_free_unsafe_eq (last_init : Int) (l : List cuda_mem_s) (size : Nat) (tid : Int)
    (i : Nat) (r : cuda_mem_s) (hi : l[i]? = some r)
    (hr : free_check_p last_init r size tid = true)
    (hbefore : ∀ j, j < i → ∀ r', l[j]? = some r' → free_check_p last_init r' size tid = false) :
    find_free_unsafe last_init l size tid = i := by
  rcases Nat.lt_trichotomy ( find_free_unsafe last_init l size tid) i with hlt | heq | hgt
  · have hil : i < l.length := (List.getElem?_eq_some.mp hi).1
    have hk : find_free_unsafe last_init l size tid < l.length := by omega
    have hget := List.getElem?_eq_getElem hk
    have h1 := find_free_unsafe_some last_init l size tid _ hget
    have h2 := hbefore _ hlt _ hget
    rw [h1] at h2
    cases h2
  · exact heq
  · have h := find_free_unsafe_before last_init l size tid i hgt r hi
    rw [hr] at h
    cases h

theorem size_t_cast (b : Int) (h0 : 0 ≤ b) (hb : b < 2 ^ 63) : (size_t b : Int) = b := by
  unfold size_t
  omega

theorem cuda_malloc_miss_error (cudaMalloc : Nat → Option Nat) (th : Thread) (m : Mem)
    (size : Int)
    (hg : m.cuda_mem_list[ find_free_unsafe th.last_init m.cuda_mem_list (size_t size) (-1)]?
      = none)
    (hm : cudaMalloc (size_t size) = none) :
    cuda_malloc cudaMalloc th m size = Except.error Fault.cudaError := by
  unfold cuda_malloc find_free
  cases hcache : m.cuda_memcache <;> simp [hg, hm, CUDA_ERROR]

/-- When each free record of the active device is shorter than every size
requested, every `cuda_malloc` of the sequence is a cache miss. -/
theorem allMisses_of_short (th : Thread) :
    ∀ (reqs : List (Int × (Nat → Option Nat))) (m : Mem),
      (∀ r ∈ m.cuda_mem_list, r.free = true → r.device_id = th.last_init →
        ∀ q ∈ reqs, r.len < size_t q.1) →
      AllMisses th m reqs := by
  intro reqs
  induction reqs with
  | nil => intro m _; exact True.intro
  | cons q rest ih =>
    intro m hinv
    obtain ⟨size, cudaMalloc⟩ := q
    have hnone :
        m.cuda_mem_list[ find_free_unsafe th.last_init m.cuda_mem_list (size_t size) (-1)]?
          = none := by
      apply find_free_unsafe_of_all_false
      intro r hr
      cases hchk : free_check_p th.last_init r (size_t size) (-1) with
      | false => rfl
      | true =>
        have h4 := (free_check_p_iff _ _ _ _).mp hchk
        have hlt := hinv r hr h4.1 h4.2.1 (size, cudaMalloc) (List.mem_cons_self _ _)
        have hle := h4.2.2.1
        simp only at hlt
        omega
    unfold AllMisses
    cases hm : cudaMalloc (size_t size) with
    | none => exact cuda_malloc_miss_error cudaMalloc th m size hnone hm
    | some p =>
      refine ⟨cuda_malloc_miss cudaMalloc th m size p hnone hm, ?_⟩
      apply ih
      intro r hr hfree hdev q hq
      simp only [insert, List.mem_cons] at hr
      rcases hr with rfl | hr
      · cases hfree
      · exact hinv r hr hfree hdev q (List.mem_cons_of_mem _ hq)

/-! ## More on `search` -/

theorem inside_p_iff (r : cuda_mem_s) (x : Nat) :
    inside_p r x = true ↔ (r.ptr ≤ x ∧ x < (r.ptr + r.len) % 2 ^ 64) := by
  simp [inside_p]

/-- An address that `inside_p` accepts lies in the range `[ptr, ptr + len)`. -/
theorem range_of_inside_p (r : cuda_mem_s) (x : Nat) (h : inside_p r x = true) :
    r.ptr ≤ x ∧ x < r.ptr + r.len := by
  obtain ⟨h1, h2⟩ := (inside_p_iff r x).mp h
  have h3 := Nat.mod_le (r.ptr + r.len) (2 ^ 64)
  exact ⟨h1, by omega⟩

theorem inside_p_eq_false_of_not_range (r : cuda_mem_s) (x : Nat)
    (h : ¬ (r.ptr ≤ x ∧ x < r.ptr + r.len)) : inside_p r x = false := by
  cases hin : inside_p r x with
  | false => rfl
  | true => exact absurd (range_of_inside_p r x hin) h

/-- For a record whose range ends below `2 ^ 64`, `inside_p` is membership in
the range `[ptr, ptr + len)`. -/
theorem inside_p_iff_range (r : cuda_mem_s) (x : Nat) (hfit : r.ptr + r.len < 2 ^ 64) :
    inside_p r x = true ↔ (r.ptr ≤ x ∧ x < r.ptr + r.len) := by
  rw [inside_p_iff, Nat.mod_eq_of_lt hfit]

theorem search_fst_remove (l : List cuda_mem_s) (ptr : Nat) (remove : Bool) :
    (search l ptr remove).1 = (search l ptr false).1 := by
  induction l with
  | nil => rfl
  | cons a rest ih =>
    unfold search
    split
    · rfl
    · simp only [ih]

theorem search_snd_of_remove (l : List cuda_mem_s) (ptr : Nat) :
    ∀ (i : Nat) (r : cuda_mem_s), (search l ptr true).1 = some (i, r) →
      (search l ptr true).2 = l.eraseIdx i := by
  induction l with
  | nil => intro i r h; simp [search] at h
  | cons a rest ih =>
    intro i r h
    unfold search at h ⊢
    split
    · rename_i hc
      simp only [hc, if_true, Option.some.injEq, Prod.mk.injEq] at h
      obtain ⟨rfl, _⟩ := h
      simp
    · rename_i hc
      simp only [hc, Bool.false_eq_true, if_false, Option.map_eq_some', Prod.mk.injEq] at h
      obtain ⟨⟨k, r0⟩, hk, rfl, _⟩ := h
      simp only [List.eraseIdx_cons_succ]
      rw [ih k r0 hk]

theorem cuda_ondevice_of_found (m : Mem) (ptr i : Nat) (r : cuda_mem_s) (h0 : ptr ≠ 0)
    (hs : (search m.cuda_mem_list ptr false).1 = some (i, r)) :
    cuda_ondevice m ptr = r.device := by
  unfold cuda_ondevice
  rw [if_neg h0, hs]

/-! ## Reachable states -/

theorem map_set_same {β : Type} (f : cuda_mem_s → β) (l : List cuda_mem_s) (i : Nat)
    (r r' : cuda_mem_s) (h : l[i]? = some r) (hf : f r' = f r) :
    (l.set i r').map f = l.map f := by
  induction l generalizing i with
  | nil => simp
  | cons a rest ih =>
    cases i with
    | zero =>
      simp only [List.getElem?_cons_zero, Option.some.injEq] at h
      subst h
      simp [hf]
    | succ k =>
      simp only [List.getElem?_cons_succ] at h
      simp [ih k h]

theorem cuda_hostalloc_ok (cudaHostAlloc : Nat → Option Nat) (th : Thread) (m m' : Mem)
    (N : Int) (p : Nat) (h : cuda_hostalloc cudaHostAlloc th m N = Except.ok (p, m')) :
    cudaHostAlloc (size_t N) = some p ∧
      m' = { m with cuda_mem_list := insert th m.cuda_mem_list p (size_t N) false,
                    calls := m.calls ++ [DevCall.cudaHostAlloc (size_t N) p] } := by
  unfold cuda_hostalloc at h
  cases hm : cudaHostAlloc (size_t N) with
  | none => rw [hm] at h; cases h
  | some q =>
    rw [hm] at h
    simp only [Except.ok.injEq, Prod.mk.injEq] at h
    obtain ⟨rfl, rfl⟩ := h
    exact ⟨rfl, rfl⟩

theorem cuda_hostfree_ok (m m' : Mem) (ptr : Nat) (h : cuda_hostfree m ptr = Except.ok m') :
    ∃ i r, (search m.cuda_mem_list ptr true).1 = some (i, r) ∧ r.ptr = ptr ∧
      r.device = false ∧
      m' = { m with cuda_mem_list := m.cuda_mem_list.eraseIdx i,
                    calls := m.calls ++ [DevCall.cudaFreeHost ptr] } := by
  unfold cuda_hostfree at h
  split at h
  · cases h
  · rename_i nptr l heq
    have h1 : (search m.cuda_mem_list ptr true).1 = some nptr := by rw [heq]
    have h2 : (search m.cuda_mem_list ptr true).2 = l := by rw [heq]
    rw [search_snd_of_remove _ _ nptr.1 nptr.2 h1] at h2
    split at h
    · cases h
    · rename_i hp
      split at h
      · cases h
      · rename_i hd
        simp only [Except.ok.injEq] at h
        refine ⟨nptr.1, nptr.2, h1, by simpa using hp, by simpa using hd, ?_⟩
        rw [h2]
        exact h.symm

theorem cuda_memcache_clear_sublist (th : Thread) (m m' : Mem)
    (h : cuda_memcache_clear th m = Except.ok m') :
    m'.cuda_mem_list.Sublist m.cuda_mem_list ∧ m'.cuda_memcache = m.cuda_memcache := by
  cases hc : m.cuda_memcache with
  | false =>
    simp only [cuda_memcache_clear, hc, Bool.not_false, if_true, Except.ok.injEq] at h
    subst h
    exact ⟨List.Sublist.refl _, hc⟩
  | true =>
    rw [cuda_memcache_clear_spec th m hc] at h
    split at h
    · simp only [Except.ok.injEq] at h
      subst h
      exact ⟨List.filter_sublist _, hc⟩
    · cases h

/-- In a reachable state caching is enabled and every free record is a device
record that contains its base address. -/
theorem Reachable.free_inv {fresh : List cuda_mem_s → Nat → Nat → Prop} {m : Mem}
    (h : Reachable fresh m) :
    m.cuda_memcache = true ∧
      ∀ r ∈ m.cuda_mem_list, r.free = true → r.device = true ∧ inside_p r r.ptr = true := by
  induction h with
  | init => exact ⟨rfl, by simp [Mem.init]⟩
  | malloc cudaMalloc th size p _ _ hcall ih =>
    obtain ⟨hc, hinv⟩ := ih
    rcases cuda_malloc_cache_ok cudaMalloc th _ _ size p hc hcall with
      ⟨r, _, _, _, rfl⟩ | ⟨_, _, rfl⟩
    · refine ⟨hc, ?_⟩
      intro x hx hfree
      rcases List.mem_or_eq_of_mem_set hx with hx | rfl
      · exact hinv x hx hfree
      · cases hfree
    · refine ⟨hc, ?_⟩
      intro x hx hfree
      simp only [insert, List.mem_cons] at hx
      rcases hx with rfl | hx
      · cases hfree
      · exact hinv x hx hfree
  | free ptr _ hcall ih =>
    obtain ⟨hc, hinv⟩ := ih
    obtain ⟨i, r, hs, hp, hd, _, rfl⟩ := cuda_free_cache_ok _ _ ptr hc hcall
    refine ⟨hc, ?_⟩
    intro x hx hfree
    rcases List.mem_or_eq_of_mem_set hx with hx | rfl
    · exact hinv x hx hfree
    · have hin := (search_fst_some _ _ _ i r hs).2.1
      rw [← hp] at hin
      exact ⟨hd, hin⟩
  | hostalloc cudaHostAlloc th N p _ _ hcall ih =>
    obtain ⟨hc, hinv⟩ := ih
    obtain ⟨_, rfl⟩ := cuda_hostalloc_ok cudaHostAlloc th _ _ N p hcall
    refine ⟨hc, ?_⟩
    intro x hx hfree
    simp only [insert, List.mem_cons] at hx
    rcases hx with rfl | hx
    · cases hfree
    · exact hinv x hx hfree
  | hostfree ptr _ hcall ih =>
    obtain ⟨hc, hinv⟩ := ih
    obtain ⟨i, r, _, _, _, rfl⟩ := cuda_hostfree_ok _ _ ptr hcall
    exact ⟨hc, fun x hx hfree => hinv x (List.mem_of_mem_eraseIdx hx) hfree⟩
  | clear th _ hcall ih =>
    obtain ⟨hc, hinv⟩ := ih
    obtain ⟨hsub, hflag⟩ := cuda_memcache_clear_sublist th _ _ hcall
    exact ⟨by rw [hflag, hc], fun x hx hfree => hinv x (hsub.mem hx) hfree⟩
  | device _ _ _ _ _ _ ih => exact ih

/-- An invariant of the reachable states: a relation `R` holds between the
images under `f` of any two records of the list (an earlier and a later one),
when `f` reads only `ptr` and `len` and the allocators' assumption gives `R`
between a record just allocated and each registered one. -/
theorem Reachable.pairwise_map {fresh : List cuda_mem_s → Nat → Nat → Prop} {β : Type}
    (f : cuda_mem_s → β) (R : β → β → Prop)
    (hsame : ∀ r r' : cuda_mem_s, r'.ptr = r.ptr → r'.len = r.len → f r' = f r)
    (hnew : ∀ (l : List cuda_mem_s) (q n : Nat), fresh l q n →
      ∀ (d : Bool) (th : Thread), ∀ r ∈ l,
        R (f ⟨q, n, d, false, th.last_init, th.thread_num⟩) (f r))
    {m : Mem} (h : Reachable fresh m) : (m.cuda_mem_list.map f).Pairwise R := by
  induction h with
  | init => simp [Mem.init]
  | malloc cudaMalloc th size p hprev hfresh hcall ih =>
    have hc := hprev.free_inv.1
    rcases cuda_malloc_cache_ok cudaMalloc th _ _ size p hc hcall with
      ⟨r, hg, _, _, rfl⟩ | ⟨_, hm, rfl⟩
    · convert ih using 1
      exact map_set_same f _ _ r _ hg (hsame _ _ rfl rfl)
    · simp only [insert, List.map_cons, List.pairwise_cons]
      refine ⟨?_, ih⟩
      intro b hb
      obtain ⟨r, hr, rfl⟩ := List.mem_map.mp hb
      exact hnew _ _ _ (hfresh p hm) true th r hr
  | free ptr hprev hcall ih =>
    have hc := hprev.free_inv.1
    obtain ⟨i, r, hs, _, _, _, rfl⟩ := cuda_free_cache_ok _ _ ptr hc hcall
    convert ih using 1
    exact map_set_same f _ _ r _ (search_fst_some _ _ _ i r hs).1 (hsame _ _ rfl rfl)
  | hostalloc cudaHostAlloc th N p _ hfresh hcall ih =>
    obtain ⟨hm, rfl⟩ := cuda_hostalloc_ok cudaHostAlloc th _ _ N p hcall
    simp only [insert, List.map_cons, List.pairwise_cons]
    refine ⟨?_, ih⟩
    intro b hb
    obtain ⟨r, hr, rfl⟩ := List.mem_map.mp hb
    exact hnew _ _ _ (hfresh p hm) false th r hr
  | hostfree ptr _ hcall ih =>
    obtain ⟨i, r, _, _, _, rfl⟩ := cuda_hostfree_ok _ _ ptr hcall
    exact List.Pairwise.sublist ((List.eraseIdx_sublist _ i).map f) ih
  | clear th _ hcall ih =>
    obtain ⟨hsub, _⟩ := cuda_memcache_clear_sublist th _ _ hcall
    exact List.Pairwise.sublist (hsub.map f) ih
  | device _ _ _ _ _ _ ih => exact ih

/-- With the allocators returning ranges that meet no registered record, the
ranges of the records of a reachable state are pairwise disjoint. -/
theorem Reachable.disjoint {m : Mem} (h : Reachable RangeFree m) :
    (m.cuda_mem_list.map range).Pairwise DisjointRanges := by
  apply Reachable.pairwise_map range DisjointRanges _ _ h
  · intro r r' h1 h2
    simp only [range, h1, h2]
  · intro l q n hf d th r hr x hx
    apply hf r hr x
    simp only [range] at hx
    have hle := Nat.mod_le (q + n) (2 ^ 64)
    exact ⟨(inside_p_iff r x).mpr hx.2, hx.1.1, by omega⟩

/-- In a list of records with pairwise disjoint ranges, a record that contains
its base address is the one `search` finds for that address, and the only
record that contains it. -/
theorem search_base_of_disjoint (l : List cuda_mem_s)
    (hd : (l.map range).Pairwise DisjointRanges) (i : Nat) (r : cuda_mem_s) (p : Nat)
    (hi : l[i]? = some r) (hin : inside_p r p = true) :
    (search l p false).1 = some (i, r) ∧
      ∀ j r', l[j]? = some r' → inside_p r' p = true → j = i := by
  rw [List.pairwise_map, List.pairwise_iff_getElem] at hd
  obtain ⟨hil, hir⟩ := List.getElem?_eq_some.mp hi
  have hrp := (inside_p_iff r p).mp hin
  have huniq : ∀ j r', l[j]? = some r' → inside_p r' p = true → j = i := by
    intro j r' hj hin'
    have hrp' := (inside_p_iff r' p).mp hin'
    obtain ⟨hjl, hjr⟩ := List.getElem?_eq_some.mp hj
    rcases Nat.lt_trichotomy j i with hlt | heq | hgt
    · have := hd j i hjl hil hlt p
      rw [hjr, hir] at this
      exact absurd ⟨hrp', hrp⟩ this
    · exact heq
    · have := hd i j hil hjl hgt p
      rw [hjr, hir] at this
      exact absurd ⟨hrp, hrp'⟩ this
  refine ⟨?_, huniq⟩
  apply search_fst_eq l p false i r hi hin
  intro j hj r' hr'
  cases hin' : inside_p r' p with
  | false => rfl
  | true =>
    have := huniq j r' hr' hin'
    omega

theorem free_check_p_eq_swept (th : Thread) :
    (fun r => free_check_p th.last_init r 0 th.thread_num) = swept th := by
  funext r
  rw [Bool.eq_iff_iff, free_check_p_iff]
  simp only [swept, Bool.and_eq_true, decide_eq_true_eq]
  constructor
  · rintro ⟨h1, h2, _, h4⟩
    refine ⟨⟨h1, h2⟩, ?_⟩
    rcases h4 with h | h
    · omega
    · exact h
  · rintro ⟨⟨h1, h2⟩, h3⟩
    exact ⟨h1, h2, Nat.zero_le _, Or.inr h3⟩

/-! ## The claims -/

/-- C1: in every state reached from the program start by `cuda_malloc` and
`cuda_free` calls (caching enabled, the runtime's allocator returning at each
call an address that no registered record holds), the address a `cuda_malloc`
returns differs from the address of every record that is in use
(`free = false`) at the moment of the call. -/
theorem cuda_malloc_address_not_in_use (m : Mem) (hreach : MallocFreeReachable m)
    (cudaMalloc : Nat → Option Nat) (th : Thread) (size : Int)
    (hfresh : ∀ q, cudaMalloc (size_t size) = some q → ∀ r ∈ m.cuda_mem_list, r.ptr ≠ q)
    (p : Nat) (m' : Mem) (hcall : cuda_malloc cudaMalloc th m size = Except.ok (p, m')) :
    ∀ r ∈ m.cuda_mem_list, r.free = false → r.ptr ≠ p := by
  obtain ⟨hc, hn⟩ := hreach.inv
  intro r hr hfree
  rcases cuda_malloc_cache_ok cudaMalloc th m m' size p hc hcall with
    ⟨r0, hg, _, rfl, _⟩ | ⟨_, hm, _⟩
  · intro hEq
    have hr0 : r0 ∈ m.cuda_mem_list := List.getElem?_mem hg
    have hsame : r = r0 := List.inj_on_of_nodup_map hn hr hr0 hEq
    have hchk := find_free_unsafe_some _ _ _ _ r0 hg
    rw [free_check_p_iff] at hchk
    rw [hsame, hchk.1] at hfree
    cases hfree
  · exact hfresh p hm r hr

/-- Witness of C1: two allocations (addresses 1000 and 2000), the first one
released; the next `cuda_malloc` returns 1000 from the cache while 2000 is in
use. -/
theorem cuda_malloc_address_not_in_use_witness :
    cuda_malloc (fun _ => some 3000) ⟨0, 0⟩
        ⟨[⟨2000, 16, true, false, 0, 0⟩, ⟨1000, 16, true, true, 0, 0⟩], true,
          [DevCall.cudaMalloc 16 1000, DevCall.cudaMalloc 16 2000]⟩ 8
      = Except.ok (1000,
          ⟨[⟨2000, 16, true, false, 0, 0⟩, ⟨1000, 16, true, false, 0, 0⟩], true,
            [DevCall.cudaMalloc 16 1000, DevCall.cudaMalloc 16 2000]⟩) ∧
    ∀ r ∈ [(⟨2000, 16, true, false, 0, 0⟩ : cuda_mem_s), ⟨1000, 16, true, true, 0, 0⟩],
      r.free = false → r.ptr ≠ 1000 :=
  by
  have h1 : MallocFreeReachable
      ⟨[⟨1000, 16, true, false, 0, 0⟩], true, [DevCall.cudaMalloc 16 1000]⟩ :=
    MallocFreeReachable.malloc (fun _ => some 1000) ⟨0, 0⟩ 16 1000
      MallocFreeReachable.init (by simp [Mem.init]) (by decide)
  have h2 : MallocFreeReachable
      ⟨[⟨2000, 16, true, false, 0, 0⟩, ⟨1000, 16, true, false, 0, 0⟩], true,
        [DevCall.cudaMalloc 16 1000, DevCall.cudaMalloc 16 2000]⟩ :=
    MallocFreeReachable.malloc (fun _ => some 2000) ⟨0, 0⟩ 16 2000 h1 (by decide) (by decide)
  have h3 : MallocFreeReachable
      ⟨[⟨2000, 16, true, false, 0, 0⟩, ⟨1000, 16, true, true, 0, 0⟩], true,
        [DevCall.cudaMalloc 16 1000, DevCall.cudaMalloc 16 2000]⟩ :=
    MallocFreeReachable.free 1000 h2 (by decide)
  exact ⟨by decide,
    cuda_malloc_address_not_in_use _ h3 (fun _ => some 3000) ⟨0, 0⟩ 8 (by decide) 1000
      ⟨[⟨2000, 16, true, false, 0, 0⟩, ⟨1000, 16, true, false, 0, 0⟩], true,
        [DevCall.cudaMalloc 16 1000, DevCall.cudaMalloc 16 2000]⟩ (by decide)⟩

/-- C2: `find_free_unsafe(size, tid)` stops at the first record, in list order,
that is free, belongs to the active device (`last_init`), has `len >= size` and,
unless `tid` is `-1`, has `thread_id = tid`; it stops at the end of the list
(the link holding `NULL`) exactly when no record is such.  Hence the record a
`cuda_malloc(size)` takes from the cache has `len >= size`. -/
theorem find_free_unsafe_first_fit (last_init : Int) (l : List cuda_mem_s) (size : Nat)
    (tid : Int) :
    (∀ j, j < find_free_unsafe last_init l size tid → ∀ r, l[j]? = some r →
      ¬ (r.free = true ∧ r.device_id = last_init ∧ size ≤ r.len ∧
          (tid = -1 ∨ r.thread_id = tid))) ∧
    (∀ r, l[ find_free_unsafe last_init l size tid]? = some r →
      (r.free = true ∧ r.device_id = last_init ∧ size ≤ r.len ∧
          (tid = -1 ∨ r.thread_id = tid))) ∧
    (l[ find_free_unsafe last_init l size tid]? = none ↔
      ∀ r ∈ l, ¬ (r.free = true ∧ r.device_id = last_init ∧ size ≤ r.len ∧
          (tid = -1 ∨ r.thread_id = tid))) ∧
    (∀ (cudaMalloc : Nat → Option Nat) (th : Thread) (m m' : Mem) (sz : Int) (p : Nat)
        (r : cuda_mem_s),
      m.cuda_memcache = true →
      m.cuda_mem_list[ find_free_unsafe th.last_init m.cuda_mem_list (size_t sz) (-1)]?
        = some r →
      cuda_malloc cudaMalloc th m sz = Except.ok (p, m') →
      p = r.ptr ∧ size_t sz ≤ r.len ∧ (sz < 2 ^ 63 → sz ≤ (r.len : Int))) := by
  refine ⟨?_, ?_, ?_, ?_⟩
  · intro j hj r hr hpred
    have h := find_free_unsafe_before last_init l size tid j hj r hr
    rw [(free_check_p_iff last_init r size tid).mpr hpred] at h
    cases h
  · intro r hr
    exact (free_check_p_iff last_init r size tid).mp (find_free_unsafe_some _ _ _ _ r hr)
  · constructor
    · intro h r hr hpred
      have h1 := find_free_unsafe_none last_init l size tid h r hr
      rw [(free_check_p_iff last_init r size tid).mpr hpred] at h1
      cases h1
    · intro h
      apply find_free_unsafe_of_all_false
      intro r hr
      cases hc : free_check_p last_init r size tid with
      | false => rfl
      | true => exact absurd ((free_check_p_iff last_init r size tid).mp hc) (h r hr)
  · intro cudaMalloc th m m' sz p r hc hg hcall
    have hchk := (free_check_p_iff _ _ _ _).mp (find_free_unsafe_some _ _ _ _ r hg)
    rcases cuda_malloc_cache_ok cudaMalloc th m m' sz p hc hcall with
      ⟨r0, hg0, _, hp, _⟩ | ⟨hnone, _, _⟩
    · rw [hg] at hg0
      cases hg0
      refine ⟨hp, hchk.2.2.1, ?_⟩
      intro hlt
      have hle := hchk.2.2.1
      unfold size_t at hle
      omega
    · rw [hg] at hnone
      cases hnone

/-- Counterexample to C3 as stated.  The state is reached by two allocations
(1000, then 2000) and the release of 2000: the record of 1000 is an in-use
device record on device 0 and no record was inserted before it.  Releasing 1000
and allocating 8 bytes on device 0 returns 2000, the record inserted after it. -/
theorem cuda_free_malloc_roundtrip_counterexample :
    MallocFreeReachable
      ⟨[⟨2000, 16, true, true, 0, 0⟩, ⟨1000, 16, true, false, 0, 0⟩], true,
        [DevCall.cudaMalloc 16 1000, DevCall.cudaMalloc 16 2000]⟩ ∧
    ([(⟨2000, 16, true, true, 0, 0⟩ : cuda_mem_s), ⟨1000, 16, true, false, 0, 0⟩][1]?
      = some ⟨1000, 16, true, false, 0, 0⟩) ∧
    (∀ j, 1 < j →
      [(⟨2000, 16, true, true, 0, 0⟩ : cuda_mem_s), ⟨1000, 16, true, false, 0, 0⟩][j]? = none) ∧
    cuda_free
        ⟨[⟨2000, 16, true, true, 0, 0⟩, ⟨1000, 16, true, false, 0, 0⟩], true,
          [DevCall.cudaMalloc 16 1000, DevCall.cudaMalloc 16 2000]⟩ 1000
      = Except.ok
        ⟨[⟨2000, 16, true, true, 0, 0⟩, ⟨1000, 16, true, true, 0, 0⟩], true,
          [DevCall.cudaMalloc 16 1000, DevCall.cudaMalloc 16 2000]⟩ ∧
    cuda_malloc (fun _ => some 3000) ⟨0, 0⟩
        ⟨[⟨2000, 16, true, true, 0, 0⟩, ⟨1000, 16, true, true, 0, 0⟩], true,
          [DevCall.cudaMalloc 16 1000, DevCall.cudaMalloc 16 2000]⟩ 8
      = Except.ok (2000,
        ⟨[⟨2000, 16, true, false, 0, 0⟩, ⟨1000, 16, true, true, 0, 0⟩], true,
          [DevCall.cudaMalloc 16 1000, DevCall.cudaMalloc 16 2000]⟩) := by
  have h1 : MallocFreeReachable
      ⟨[⟨1000, 16, true, false, 0, 0⟩], true, [DevCall.cudaMalloc 16 1000]⟩ :=
    MallocFreeReachable.malloc (fun _ => some 1000) ⟨0, 0⟩ 16 1000
      MallocFreeReachable.init (by simp [Mem.init]) (by decide)
  have h2 : MallocFreeReachable
      ⟨[⟨2000, 16, true, false, 0, 0⟩, ⟨1000, 16, true, false, 0, 0⟩], true,
        [DevCall.cudaMalloc 16 1000, DevCall.cudaMalloc 16 2000]⟩ :=
    MallocFreeReachable.malloc (fun _ => some 2000) ⟨0, 0⟩ 16 2000 h1 (by decide) (by decide)
  refine ⟨MallocFreeReachable.free 2000 h2 (by decide), by decide, ?_, by decide, by decide⟩
  intro j hj
  rw [List.getElem?_eq_none]
  simp only [List.length_cons, List.length_nil]
  omega

/-- C3, amended: with caching enabled, let `p` be the address of an in-use
device record of the active device, the record that `search` finds for `p`,
and let `size <= len` of that record.  If no record before it in the list
(that is, inserted after it) is reusable (free, same device, `len >= size`),
then `cuda_free(p)` followed by `cuda_malloc(size)` returns `p`. -/
theorem cuda_free_malloc_roundtrip (cudaMalloc : Nat → Option Nat) (th : Thread) (m : Mem)
    (size : Int) (p i : Nat) (r : cuda_mem_s)
    (hc : m.cuda_memcache = true)
    (hs : (search m.cuda_mem_list p false).1 = some (i, r))
    (hp : r.ptr = p) (hd : r.device = true) (hf : r.free = false)
    (hdev : r.device_id = th.last_init) (hsz : size_t size ≤ r.len)
    (hfirst : ∀ j, j < i → ∀ r', m.cuda_mem_list[j]? = some r' →
      ¬ (r'.free = true ∧ r'.device_id = th.last_init ∧ size_t size ≤ r'.len)) :
    ∃ m1 m2, cuda_free m p = Except.ok m1 ∧
      cuda_malloc cudaMalloc th m1 size = Except.ok (p, m2) := by
  have hget := (search_fst_some _ _ _ i r hs).1
  have hil : i < m.cuda_mem_list.length := (List.getElem?_eq_some.mp hget).1
  have hidx : find_free_unsafe th.last_init
      (m.cuda_mem_list.set i { r with free := true }) (size_t size) (-1) = i := by
    apply find_free_unsafe_eq _ _ _ _ i { r with free := true }
    · rw [List.getElem?_set_eq_of_lt _ hil]
    · rw [free_check_p_iff]
      exact ⟨rfl, hdev, hsz, Or.inl rfl⟩
    · intro j hj r' hr'
      rw [List.getElem?_set_ne (by omega)] at hr'
      cases hchk : free_check_p th.last_init r' (size_t size) (-1) with
      | false => rfl
      | true =>
        have h4 := (free_check_p_iff _ _ _ _).mp hchk
        exact absurd ⟨h4.1, h4.2.1, h4.2.2.1⟩ (hfirst j hj r' hr')
  have hhit := cuda_malloc_hit cudaMalloc th
    { m with cuda_mem_list := m.cuda_mem_list.set i { r with free := true } } size
    { r with free := true } hc
    (by simp only [hidx]; rw [List.getElem?_set_eq_of_lt _ hil]) hd
  subst hp
  exact ⟨_, _, cuda_free_cache m r.ptr i r hc hs rfl hd hf, hhit⟩

/-- Witness of the amended C3: after allocating 1000 and then 2000, releasing
2000 and then allocating 8 bytes returns 2000 again. -/
theorem cuda_free_malloc_roundtrip_witness :
    ∃ m1 m2,
      cuda_free
          ⟨[⟨2000, 16, true, false, 0, 0⟩, ⟨1000, 16, true, false, 0, 0⟩], true,
            [DevCall.cudaMalloc 16 1000, DevCall.cudaMalloc 16 2000]⟩ 2000
        = Except.ok m1 ∧
      cuda_malloc (fun _ => some 3000) ⟨0, 0⟩ m1 8 = Except.ok (2000, m2) :=
  cuda_free_malloc_roundtrip (fun _ => some 3000) ⟨0, 0⟩
    ⟨[⟨2000, 16, true, false, 0, 0⟩, ⟨1000, 16, true, false, 0, 0⟩], true,
      [DevCall.cudaMalloc 16 1000, DevCall.cudaMalloc 16 2000]⟩ 8 2000 0
    ⟨2000, 16, true, false, 0, 0⟩ rfl (by decide) rfl rfl rfl rfl (by decide)
    (by intro j hj; omega)

/-- C5: when every free record of the registry belongs to a device other than
the active one, `cuda_malloc(size)` is a cache miss: it returns the address the
runtime's allocator gives for `size` bytes, and the registry afterwards is the
old one with one new record (that address, `len = size`, `device = true`,
`free = false`, `device_id` the active device, `thread_id` the caller) at its
head; the only runtime call is that `cudaMalloc`.  When the runtime reports an
error the call does not return. -/
theorem cuda_malloc_miss_on_other_device (cudaMalloc : Nat → Option Nat) (th : Thread) (m : Mem)
    (size : Int)
    (hother : ∀ r ∈ m.cuda_mem_list, r.free = true → r.device_id ≠ th.last_init) :
    (∀ p, cudaMalloc (size_t size) = some p →
      cuda_malloc cudaMalloc th m size = Except.ok (p,
        { m with
          cuda_mem_list :=
            (⟨p, size_t size, true, false, th.last_init, th.thread_num⟩ :: m.cuda_mem_list),
          calls := m.calls ++ [DevCall.cudaMalloc (size_t size) p] })) ∧
    (cudaMalloc (size_t size) = none →
      cuda_malloc cudaMalloc th m size = Except.error Fault.cudaError) ∧
    (0 ≤ size → size < 2 ^ 63 → (size_t size : Int) = size) := by
  have hnone :
      m.cuda_mem_list[ find_free_unsafe th.last_init m.cuda_mem_list (size_t size) (-1)]?
        = none := by
    apply find_free_unsafe_of_all_false
    intro r hr
    cases hchk : free_check_p th.last_init r (size_t size) (-1) with
    | false => rfl
    | true =>
      have h4 := (free_check_p_iff _ _ _ _).mp hchk
      exact absurd h4.2.1 (hother r hr h4.1)
  refine ⟨?_, ?_, size_t_cast size⟩
  · intro p hm
    exact cuda_malloc_miss cudaMalloc th m size p hnone hm
  · intro hm
    unfold cuda_malloc find_free
    cases hcache : m.cuda_memcache <;> simp [hnone, hm, CUDA_ERROR]

/-- Witness of C5: a buffer allocated and released on device 0, the thread then
on device 1; `cuda_malloc(1024)` allocates anew and the registry has two
records. -/
theorem cuda_malloc_miss_on_other_device_witness :
    cuda_malloc (fun _ => some 8192) ⟨1, 0⟩
        ⟨[⟨4096, 1024, true, true, 0, 0⟩], true, [DevCall.cudaMalloc 1024 4096]⟩ 1024
      = Except.ok (8192,
          ⟨[⟨8192, 1024, true, false, 1, 0⟩, ⟨4096, 1024, true, true, 0, 0⟩], true,
            [DevCall.cudaMalloc 1024 4096, DevCall.cudaMalloc 1024 8192]⟩) :=
  (cuda_malloc_miss_on_other_device (fun _ => some 8192) ⟨1, 0⟩
    ⟨[⟨4096, 1024, true, true, 0, 0⟩], true, [DevCall.cudaMalloc 1024 4096]⟩ 1024
    (by decide)).1 8192 (by decide)

/-- C6: with caching enabled `cuda_free(ptr)` fails an assertion when no record
contains `ptr`, when the record found for it is not on the device, and when
that record is already free.  For an in-use device record found at its base
address, `cuda_free` returns and a second `cuda_free` of the same address
fails; more generally a `cuda_free` that returns is never followed by a
returning `cuda_free` of the same address. -/
theorem cuda_free_faults (m : Mem) (ptr : Nat) (hc : m.cuda_memcache = true) :
    ((∀ r ∈ m.cuda_mem_list, ¬ (r.ptr ≤ ptr ∧ ptr < r.ptr + r.len)) →
      cuda_free m ptr = Except.error Fault.assertion) ∧
    (∀ i r, (search m.cuda_mem_list ptr false).1 = some (i, r) →
      (r.device = false ∨ r.free = true) →
      cuda_free m ptr = Except.error Fault.assertion) ∧
    (∀ i r, (search m.cuda_mem_list ptr false).1 = some (i, r) →
      r.ptr = ptr → r.device = true → r.free = false →
      ∃ m1, cuda_free m ptr = Except.ok m1 ∧
        cuda_free m1 ptr = Except.error Fault.assertion) ∧
    (∀ m1, cuda_free m ptr = Except.ok m1 →
      cuda_free m1 ptr = Except.error Fault.assertion) := by
  have hsnd := search_snd_of_not_remove m.cuda_mem_list ptr
  have hfound : ∀ i r, (search m.cuda_mem_list ptr false).1 = some (i, r) →
      search m.cuda_mem_list ptr false = (some (i, r), m.cuda_mem_list) :=
    fun i r hs => Prod.ext hs hsnd
  have hdouble : ∀ i r, (search m.cuda_mem_list ptr false).1 = some (i, r) →
      cuda_free { m with cuda_mem_list := m.cuda_mem_list.set i { r with free := true } } ptr
        = Except.error Fault.assertion := by
    intro i r hs
    obtain ⟨hget, hin, hbefore⟩ := search_fst_some _ _ _ i r hs
    have hil : i < m.cuda_mem_list.length := (List.getElem?_eq_some.mp hget).1
    have hs1 : (search (m.cuda_mem_list.set i { r with free := true }) ptr false).1
        = some (i, { r with free := true }) := by
      apply search_fst_eq
      · rw [List.getElem?_set_eq_of_lt _ hil]
      · exact hin
      · intro j hj r' hr'
        rw [List.getElem?_set_ne (by omega)] at hr'
        exact hbefore j hj r' hr'
    have hpair : search (m.cuda_mem_list.set i { r with free := true }) ptr false
        = (some (i, { r with free := true }),
            m.cuda_mem_list.set i { r with free := true }) :=
      Prod.ext hs1 (search_snd_of_not_remove _ ptr)
    unfold cuda_free
    simp only [hc, Bool.not_true]
    rw [hpair]
    simp
  refine ⟨?_, ?_, ?_, ?_⟩
  · intro hno
    have hs : (search m.cuda_mem_list ptr false).1 = none := by
      rw [search_fst_none]
      intro r hr
      exact inside_p_eq_false_of_not_range r ptr (hno r hr)
    have hpair : search m.cuda_mem_list ptr false = (none, m.cuda_mem_list) := Prod.ext hs hsnd
    unfold cuda_free
    simp only [hc, Bool.not_true]
    rw [hpair]
  · intro i r hs hbad
    unfold cuda_free
    simp only [hc, Bool.not_true]
    rw [hfound i r hs]
    rcases hbad with hd | hf
    · simp [hd]
    · simp [hf]
  · intro i r hs hp hd hf
    exact ⟨_, cuda_free_cache m ptr i r hc hs hp hd hf, hdouble i r hs⟩
  · intro m1 h1
    obtain ⟨i, r, hs, _, _, _, rfl⟩ := cuda_free_cache_ok m m1 ptr hc h1
    exact hdouble i r hs

/-- Witness of C6: releasing twice the one in-use record; the second release
fails. -/
theorem cuda_free_faults_witness :
    ∃ m1, cuda_free ⟨[⟨4096, 1024, true, false, 0, 0⟩], true, []⟩ 4096 = Except.ok m1 ∧
      cuda_free m1 4096 = Except.error Fault.assertion :=
  (cuda_free_faults ⟨[⟨4096, 1024, true, false, 0, 0⟩], true, []⟩ 4096 rfl).2.2.1
    0 ⟨4096, 1024, true, false, 0, 0⟩ (by decide) rfl rfl rfl

/-- C7: with caching enabled a `cuda_free(ptr)` that returns has changed one
thing: the flag `free` of the record found for `ptr`, from false to true.  The
list has the same records in the same order with all other fields as before,
the flag `cuda_memcache` is as before and no runtime call was made. -/
theorem cuda_free_frame (m m1 : Mem) (ptr : Nat) (hc : m.cuda_memcache = true)
    (h : cuda_free m ptr = Except.ok m1) :
    ∃ i r, (search m.cuda_mem_list ptr false).1 = some (i, r) ∧
      m.cuda_mem_list[i]? = some r ∧ r.ptr = ptr ∧ r.free = false ∧
      m1.cuda_mem_list = m.cuda_mem_list.set i { r with free := true } ∧
      m1.cuda_mem_list[i]? = some ⟨r.ptr, r.len, r.device, true, r.device_id, r.thread_id⟩ ∧
      (∀ j, j ≠ i → m1.cuda_mem_list[j]? = m.cuda_mem_list[j]?) ∧
      m1.cuda_mem_list.length = m.cuda_mem_list.length ∧
      m1.calls = m.calls ∧ m1.cuda_memcache = m.cuda_memcache := by
  obtain ⟨i, r, hs, hp, _, hf, rfl⟩ := cuda_free_cache_ok m m1 ptr hc h
  have hget := (search_fst_some _ _ _ i r hs).1
  have hil : i < m.cuda_mem_list.length := (List.getElem?_eq_some.mp hget).1
  refine ⟨i, r, hs, hget, hp, hf, rfl, ?_, ?_, by simp, rfl, rfl⟩
  · simp only
    rw [List.getElem?_set_eq_of_lt _ hil]
  · intro j hj
    simp only
    rw [List.getElem?_set_ne (by omega)]

/-- Witness of C7: the second of two in-use records is released. -/
theorem cuda_free_frame_witness :
    ∃ i r,
      (search [(⟨2000, 16, true, false, 0, 0⟩ : cuda_mem_s), ⟨1000, 16, true, false, 0, 0⟩]
          1000 false).1 = some (i, r) ∧
      [(⟨2000, 16, true, false, 0, 0⟩ : cuda_mem_s), ⟨1000, 16, true, false, 0, 0⟩][i]?
        = some r ∧ r.ptr = 1000 ∧ r.free = false ∧
      [(⟨2000, 16, true, false, 0, 0⟩ : cuda_mem_s), ⟨1000, 16, true, true, 0, 0⟩]
        = [(⟨2000, 16, true, false, 0, 0⟩ : cuda_mem_s), ⟨1000, 16, true, false, 0, 0⟩].set i
            { r with free := true } ∧
      [(⟨2000, 16, true, false, 0, 0⟩ : cuda_mem_s), ⟨1000, 16, true, true, 0, 0⟩][i]?
        = some ⟨r.ptr, r.len, r.device, true, r.device_id, r.thread_id⟩ ∧
      (∀ j, j ≠ i →
        [(⟨2000, 16, true, false, 0, 0⟩ : cuda_mem_s), ⟨1000, 16, true, true, 0, 0⟩][j]?
          = [(⟨2000, 16, true, false, 0, 0⟩ : cuda_mem_s), ⟨1000, 16, true, false, 0, 0⟩][j]?) ∧
      [(⟨2000, 16, true, false, 0, 0⟩ : cuda_mem_s), ⟨1000, 16, true, true, 0, 0⟩].length
        = [(⟨2000, 16, true, false, 0, 0⟩ : cuda_mem_s), ⟨1000, 16, true, false, 0, 0⟩].length ∧
      ([] : List DevCall) = [] ∧ true = true :=
  cuda_free_frame
    ⟨[⟨2000, 16, true, false, 0, 0⟩, ⟨1000, 16, true, false, 0, 0⟩], true, []⟩
    ⟨[⟨2000, 16, true, false, 0, 0⟩, ⟨1000, 16, true, true, 0, 0⟩], true, []⟩
    1000 rfl (by decide)

/-- Counterexample to C8 as stated.  Thread 0, on device 1, allocates a buffer
and releases it, then selects device 0 and calls `cuda_memcache_clear`: the
call returns with the registry unchanged, and the free record of thread 0 (of
device 1) is still registered. -/
theorem cuda_memcache_clear_post_counterexample :
    cuda_malloc (fun _ => some 4096) ⟨1, 0⟩ Mem.init 1024
      = Except.ok (4096, ⟨[⟨4096, 1024, true, false, 1, 0⟩], true,
          [DevCall.cudaMalloc 1024 4096]⟩) ∧
    cuda_free ⟨[⟨4096, 1024, true, false, 1, 0⟩], true, [DevCall.cudaMalloc 1024 4096]⟩ 4096
      = Except.ok ⟨[⟨4096, 1024, true, true, 1, 0⟩], true, [DevCall.cudaMalloc 1024 4096]⟩ ∧
    cuda_init true ⟨1, 0⟩ 0 = Except.ok ⟨0, 0⟩ ∧
    cuda_memcache_clear ⟨0, 0⟩
        ⟨[⟨4096, 1024, true, true, 1, 0⟩], true, [DevCall.cudaMalloc 1024 4096]⟩
      = Except.ok ⟨[⟨4096, 1024, true, true, 1, 0⟩], true, [DevCall.cudaMalloc 1024 4096]⟩ ∧
    ∃ r ∈ [(⟨4096, 1024, true, true, 1, 0⟩ : cuda_mem_s)],
      r.free = true ∧ r.thread_id = ((⟨0, 0⟩ : Thread).thread_num : Int) := by
  refine ⟨by decide, by decide, by decide, ?_, by decide⟩
  rw [cuda_memcache_clear_spec _ _ rfl]
  decide

/-- C8, amended: with caching enabled, after `cuda_memcache_clear()` has
returned the registry contains no record with `free = true`, `thread_id` the
calling thread and `device_id` the caller's active device (`last_init`).  The
call returns when every free record of the caller on the active device is a
device record. -/
theorem cuda_memcache_clear_post (th : Thread) (m : Mem) (hc : m.cuda_memcache = true) :
    (∀ m', cuda_memcache_clear th m = Except.ok m' →
      ∀ r ∈ m'.cuda_mem_list,
        ¬ (r.free = true ∧ r.thread_id = th.thread_num ∧ r.device_id = th.last_init)) ∧
    ((∀ r ∈ m.cuda_mem_list,
        r.free = true → r.thread_id = th.thread_num → r.device_id = th.last_init →
          r.device = true) →
      ∃ m', cuda_memcache_clear th m = Except.ok m') := by
  rw [cuda_memcache_clear_spec th m hc]
  constructor
  · intro m' h r hr hbad
    split at h
    · simp only [Except.ok.injEq] at h
      subst h
      simp only [List.mem_filter, Bool.not_eq_true'] at hr
      have hchk := (free_check_p_iff th.last_init r 0 th.thread_num).mpr
        ⟨hbad.1, hbad.2.2, Nat.zero_le _, Or.inr hbad.2.1⟩
      rw [hchk] at hr
      cases hr.2
    · cases h
  · intro hdev
    have hall : (m.cuda_mem_list.filter
        (fun x => free_check_p th.last_init x 0 th.thread_num)).all (fun x => x.device)
        = true := by
      rw [List.all_eq_true]
      intro r hr
      simp only [List.mem_filter] at hr
      have h4 := (free_check_p_iff _ _ _ _).mp hr.2
      have hth : r.thread_id = th.thread_num := by
        rcases h4.2.2.2 with h | h
        · omega
        · exact h
      exact hdev r hr.1 h4.1 hth h4.2.1
    rw [if_pos hall]
    exact ⟨_, rfl⟩

/-- Witness of C8 (amended): thread 0 on device 0 has a free record on device 0
and one on device 1; the first is swept, the second stays. -/
theorem cuda_memcache_clear_post_witness :
    cuda_memcache_clear ⟨0, 0⟩
        ⟨[⟨4096, 1024, true, true, 1, 0⟩, ⟨8192, 64, true, true, 0, 0⟩], true, []⟩
      = Except.ok ⟨[⟨4096, 1024, true, true, 1, 0⟩], true, [DevCall.cudaFree 8192]⟩ ∧
    ∀ r ∈ [(⟨4096, 1024, true, true, 1, 0⟩ : cuda_mem_s)],
      ¬ (r.free = true ∧ r.thread_id = ((⟨0, 0⟩ : Thread).thread_num : Int) ∧
          r.device_id = (⟨0, 0⟩ : Thread).last_init) := by
  have hrun : cuda_memcache_clear ⟨0, 0⟩
        ⟨[⟨4096, 1024, true, true, 1, 0⟩, ⟨8192, 64, true, true, 0, 0⟩], true, []⟩
      = Except.ok ⟨[⟨4096, 1024, true, true, 1, 0⟩], true, [DevCall.cudaFree 8192]⟩ := by
    rw [cuda_memcache_clear_spec _ _ rfl]
    decide
  exact ⟨hrun,
    (cuda_memcache_clear_post ⟨0, 0⟩
      ⟨[⟨4096, 1024, true, true, 1, 0⟩, ⟨8192, 64, true, true, 0, 0⟩], true, []⟩ rfl).1
      _ hrun⟩

/-- C9: `cuda_memcache_clear()`, and with it `cuda_exit()`, removes only
records that are free and belong to the calling thread: the list afterwards is
a sublist of the list before (same records, same order, no field changed), and
every record with `free = false` or with `thread_id` another thread is kept,
in order.  The flag `cuda_memcache` is as before.  Both calls return when
every free record is a device record (and, for `cuda_exit`, the runtime
call succeeds). -/
theorem cuda_memcache_clear_frame (th : Thread) (m : Mem) :
    (∀ m', cuda_memcache_clear th m = Except.ok m' →
      m'.cuda_mem_list.Sublist m.cuda_mem_list ∧
      (m.cuda_mem_list.filter
        (fun r => !r.free || decide (r.thread_id ≠ (th.thread_num : Int)))).Sublist m'.cuda_mem_list ∧
      m'.cuda_memcache = m.cuda_memcache) ∧
    (∀ m' ok, cuda_exit ok th m = Except.ok m' →
      m'.cuda_mem_list.Sublist m.cuda_mem_list ∧
      (m.cuda_mem_list.filter
        (fun r => !r.free || decide (r.thread_id ≠ (th.thread_num : Int)))).Sublist m'.cuda_mem_list ∧
      m'.cuda_memcache = m.cuda_memcache) ∧
    ((∀ r ∈ m.cuda_mem_list, r.free = true → r.device = true) →
      ∃ m', cuda_memcache_clear th m = Except.ok m' ∧
        cuda_exit true th m = Except.ok m') := by
  have hkeep : (m.cuda_mem_list.filter
        (fun r => !r.free || decide (r.thread_id ≠ (th.thread_num : Int)))).Sublist
      (m.cuda_mem_list.filter (fun x => !free_check_p th.last_init x 0 th.thread_num)) := by
    have heq : m.cuda_mem_list.filter
          (fun r => !r.free || decide (r.thread_id ≠ (th.thread_num : Int)))
        = (m.cuda_mem_list.filter
            (fun x => !free_check_p th.last_init x 0 th.thread_num)).filter
            (fun r => !r.free || decide (r.thread_id ≠ (th.thread_num : Int))) := by
      rw [List.filter_filter]
      apply List.filter_congr
      intro r _
      cases hchk : free_check_p th.last_init r 0 th.thread_num with
      | false => simp
      | true =>
        have h4 := (free_check_p_iff _ _ _ _).mp hchk
        have hth : r.thread_id = th.thread_num := by
          rcases h4.2.2.2 with h | h
          · omega
          · exact h
        simp [h4.1, hth]
    rw [heq]
    exact List.filter_sublist _
  have hclear : ∀ m', cuda_memcache_clear th m = Except.ok m' →
      m'.cuda_mem_list.Sublist m.cuda_mem_list ∧
      (m.cuda_mem_list.filter
        (fun r => !r.free || decide (r.thread_id ≠ (th.thread_num : Int)))).Sublist m'.cuda_mem_list ∧
      m'.cuda_memcache = m.cuda_memcache := by
    intro m' h
    cases hc : m.cuda_memcache with
    | false =>
      simp only [cuda_memcache_clear, hc, Bool.not_false, if_true, Except.ok.injEq] at h
      subst h
      exact ⟨List.Sublist.refl _, List.filter_sublist _, hc⟩
    | true =>
      rw [cuda_memcache_clear_spec th m hc] at h
      split at h
      · simp only [Except.ok.injEq] at h
        subst h
        exact ⟨List.filter_sublist _, hkeep, hc⟩
      · cases h
  refine ⟨hclear, ?_, ?_⟩
  · intro m' ok h
    unfold cuda_exit at h
    cases hcl : cuda_memcache_clear th m with
    | error e => rw [hcl] at h; cases h
    | ok m1 =>
      rw [hcl] at h
      cases ok with
      | false => simp [CUDA_ERROR] at h
      | true =>
        simp only [CUDA_ERROR, if_true, Except.ok.injEq] at h
        subst h
        exact hclear m1 hcl
  · intro hdev
    have hret : ∃ m', cuda_memcache_clear th m = Except.ok m' := by
      cases hc : m.cuda_memcache with
      | false => exact ⟨m, by simp [cuda_memcache_clear, hc]⟩
      | true =>
        rw [cuda_memcache_clear_spec th m hc]
        have hall : (m.cuda_mem_list.filter
            (fun x => free_check_p th.last_init x 0 th.thread_num)).all (fun x => x.device)
            = true := by
          rw [List.all_eq_true]
          intro r hr
          simp only [List.mem_filter] at hr
          exact hdev r hr.1 ((free_check_p_iff _ _ _ _).mp hr.2).1
        rw [if_pos hall]
        exact ⟨_, rfl⟩
    obtain ⟨m', hm'⟩ := hret
    refine ⟨m', hm', ?_⟩
    unfold cuda_exit
    rw [hm']
    simp [CUDA_ERROR]

/-- Witness of C9: thread 0 on device 0 sweeps its own free record; its
in-use record and the free record of thread 1 stay, in order. -/
theorem cuda_memcache_clear_frame_witness :
    cuda_memcache_clear ⟨0, 0⟩
        ⟨[⟨1000, 16, true, true, 0, 0⟩, ⟨2000, 16, true, false, 0, 0⟩,
          ⟨3000, 16, true, true, 0, 1⟩], true, []⟩
      = Except.ok
        ⟨[⟨2000, 16, true, false, 0, 0⟩, ⟨3000, 16, true, true, 0, 1⟩], true,
          [DevCall.cudaFree 1000]⟩ ∧
    ([(⟨1000, 16, true, true, 0, 0⟩ : cuda_mem_s), ⟨2000, 16, true, false, 0, 0⟩,
        ⟨3000, 16, true, true, 0, 1⟩].filter
        (fun r => !r.free || decide (r.thread_id ≠ ((⟨0, 0⟩ : Thread).thread_num : Int)))).Sublist
      [(⟨2000, 16, true, false, 0, 0⟩ : cuda_mem_s), ⟨3000, 16, true, true, 0, 1⟩] := by
  have hrun : cuda_memcache_clear ⟨0, 0⟩
        ⟨[⟨1000, 16, true, true, 0, 0⟩, ⟨2000, 16, true, false, 0, 0⟩,
          ⟨3000, 16, true, true, 0, 1⟩], true, []⟩
      = Except.ok
        ⟨[⟨2000, 16, true, false, 0, 0⟩, ⟨3000, 16, true, true, 0, 1⟩], true,
          [DevCall.cudaFree 1000]⟩ := by
    rw [cuda_memcache_clear_spec _ _ rfl]
    decide
  exact ⟨hrun,
    ((cuda_memcache_clear_frame ⟨0, 0⟩
      ⟨[⟨1000, 16, true, true, 0, 0⟩, ⟨2000, 16, true, false, 0, 0⟩,
        ⟨3000, 16, true, true, 0, 1⟩], true, []⟩).1 _ hrun).2.1⟩

/-- Counterexample to C10 as stated.  The registry holds a buffer that thread 1
released on device 0.  Thread 0, on device 0, calls `cuda_memcache_clear`
(which leaves that record) and then `cuda_malloc(512)`: the call returns the
registered address 4096 from the cache; no runtime call is made and no record
is inserted. -/
theorem cuda_malloc_after_clear_counterexample :
    cuda_memcache_clear ⟨0, 0⟩ ⟨[⟨4096, 1024, true, true, 0, 1⟩], true, []⟩
      = Except.ok ⟨[⟨4096, 1024, true, true, 0, 1⟩], true, []⟩ ∧
    cuda_malloc (fun _ => some 8192) ⟨0, 0⟩ ⟨[⟨4096, 1024, true, true, 0, 1⟩], true, []⟩ 512
      = Except.ok (4096, ⟨[⟨4096, 1024, true, false, 0, 0⟩], true, []⟩) := by
  refine ⟨?_, by decide⟩
  rw [cuda_memcache_clear_spec _ _ rfl]
  decide

/-- C10, amended: with caching enabled, after `cuda_memcache_clear()` by the
thread `t` has returned, every `cuda_malloc(size)` of a sequence of such calls
by `t` on the same active device, with no other call in between, is a cache
miss (it asks the runtime for the memory and inserts a new record), provided
that every free record of the active device that belongs to another thread is
shorter than each size requested. -/
theorem cuda_malloc_after_clear (th : Thread) (m m1 : Mem)
    (reqs : List (Int × (Nat → Option Nat)))
    (hc : m.cuda_memcache = true)
    (hothers : ∀ r ∈ m.cuda_mem_list, r.free = true → r.device_id = th.last_init →
      r.thread_id ≠ (th.thread_num : Int) → ∀ q ∈ reqs, r.len < size_t q.1)
    (hclear : cuda_memcache_clear th m = Except.ok m1) :
    AllMisses th m1 reqs := by
  apply allMisses_of_short
  rw [cuda_memcache_clear_spec th m hc] at hclear
  split at hclear
  · simp only [Except.ok.injEq] at hclear
    subst hclear
    intro r hr hfree hdev q hq
    simp only [List.mem_filter, Bool.not_eq_true'] at hr
    apply hothers r hr.1 hfree hdev _ q hq
    intro hth
    have hchk := (free_check_p_iff th.last_init r 0 th.thread_num).mpr
      ⟨hfree, hdev, Nat.zero_le _, Or.inr hth⟩
    rw [hchk] at hr
    cases hr.2
  · cases hclear

/-- Witness of C10 (amended): thread 0 sweeps its free record, then allocates
twice; both calls go to the runtime. -/
theorem cuda_malloc_after_clear_witness :
    AllMisses ⟨0, 0⟩ ⟨[], true, [DevCall.cudaFree 4096]⟩
      [(512, fun _ => some 8192), (16, fun _ => some 9000)] :=
  cuda_malloc_after_clear ⟨0, 0⟩ ⟨[⟨4096, 1024, true, true, 0, 0⟩], true, []⟩
    ⟨[], true, [DevCall.cudaFree 4096]⟩
    [(512, fun _ => some 8192), (16, fun _ => some 9000)] rfl (by decide)
    (by rw [cuda_memcache_clear_spec _ _ rfl]; decide)

/-- C11: `cuda_ondevice(NULL)` is false, and for an address that lies in the
range of no record `cuda_ondevice` and `cuda_accessible` are both false.  Both
functions return a value on every input (the record pointer is tested against
`NULL` before its field is read). -/
theorem cuda_ondevice_accessible_unregistered (m : Mem) :
    cuda_ondevice m 0 = false ∧
    (∀ ptr, (∀ r ∈ m.cuda_mem_list, ¬ (r.ptr ≤ ptr ∧ ptr < r.ptr + r.len)) →
      cuda_ondevice m ptr = false ∧ cuda_accessible m ptr = false) ∧
    (∀ ptr, cuda_ondevice m ptr = true ∨ cuda_ondevice m ptr = false) ∧
    (∀ ptr, cuda_accessible m ptr = true ∨ cuda_accessible m ptr = false) := by
  refine ⟨by simp [cuda_ondevice], ?_, ?_, ?_⟩
  · intro ptr hno
    have hs : (search m.cuda_mem_list ptr false).1 = none := by
      rw [search_fst_none]
      intro r hr
      exact inside_p_eq_false_of_not_range r ptr (hno r hr)
    constructor
    · unfold cuda_ondevice
      split
      · rfl
      · rw [hs]
    · unfold cuda_accessible
      rw [hs]
  · intro ptr
    cases cuda_ondevice m ptr <;> simp
  · intro ptr
    cases cuda_accessible m ptr <;> simp

/-- Witness of C11: one device record at 4096 of 1024 bytes; the address 8192
lies in no record. -/
theorem cuda_ondevice_accessible_unregistered_witness :
    cuda_ondevice ⟨[⟨4096, 1024, true, false, 0, 0⟩], true, []⟩ 8192 = false ∧
    cuda_accessible ⟨[⟨4096, 1024, true, false, 0, 0⟩], true, []⟩ 8192 = false :=
  (cuda_ondevice_accessible_unregistered ⟨[⟨4096, 1024, true, false, 0, 0⟩], true, []⟩).2.1
    8192 (by decide)

/-- Counterexample to C12 as stated: a buffer of 1024 bytes is allocated at
4096 and released into the cache; `cuda_ondevice` still returns true for its
address and for an address inside it. -/
theorem cuda_ondevice_free_record_counterexample :
    cuda_malloc (fun _ => some 4096) ⟨0, 0⟩ Mem.init 1024
      = Except.ok (4096, ⟨[⟨4096, 1024, true, false, 0, 0⟩], true,
          [DevCall.cudaMalloc 1024 4096]⟩) ∧
    cuda_free ⟨[⟨4096, 1024, true, false, 0, 0⟩], true, [DevCall.cudaMalloc 1024 4096]⟩ 4096
      = Except.ok ⟨[⟨4096, 1024, true, true, 0, 0⟩], true, [DevCall.cudaMalloc 1024 4096]⟩ ∧
    cuda_ondevice ⟨[⟨4096, 1024, true, true, 0, 0⟩], true, [DevCall.cudaMalloc 1024 4096]⟩ 4096
      = true ∧
    cuda_ondevice ⟨[⟨4096, 1024, true, true, 0, 0⟩], true, [DevCall.cudaMalloc 1024 4096]⟩ 4100
      = true := by
  decide

/-- C12, amended: `cuda_ondevice` does not read the flag `free`.  For an
address other than `NULL` it returns the flag `device` of the record that
`search` finds for the address, whatever the flag `free` of that record is: for
an address in a device record released into the cache it returns true (as it
does before the release and after the reuse), for a pinned host record
false. -/
theorem cuda_ondevice_free_record (m : Mem) (ptr i : Nat) (r : cuda_mem_s) (h0 : ptr ≠ 0)
    (hs : (search m.cuda_mem_list ptr false).1 = some (i, r)) :
    cuda_ondevice m ptr = r.device ∧
    (r.free = true → r.device = true → cuda_ondevice m ptr = true) ∧
    (∀ b : Bool,
      cuda_ondevice { m with cuda_mem_list := m.cuda_mem_list.set i { r with free := b } } ptr
        = cuda_ondevice m ptr) := by
  have hres := cuda_ondevice_of_found m ptr i r h0 hs
  obtain ⟨hget, hin, hbefore⟩ := search_fst_some _ _ _ i r hs
  have hil : i < m.cuda_mem_list.length := (List.getElem?_eq_some.mp hget).1
  refine ⟨hres, fun _ hd => by rw [hres, hd], ?_⟩
  intro b
  have hs1 : (search (m.cuda_mem_list.set i { r with free := b }) ptr false).1
      = some (i, { r with free := b }) := by
    apply search_fst_eq
    · rw [List.getElem?_set_eq_of_lt _ hil]
    · exact hin
    · intro j hj r' hr'
      rw [List.getElem?_set_ne (by omega)] at hr'
      exact hbefore j hj r' hr'
  rw [hres]
  exact cuda_ondevice_of_found
    { m with cuda_mem_list := m.cuda_mem_list.set i { r with free := b } } ptr i
    { r with free := b } h0 hs1

/-- Witness of C12 (amended): the released buffer at 4096 is reported as on the
device. -/
theorem cuda_ondevice_free_record_witness :
    cuda_ondevice ⟨[⟨4096, 1024, true, true, 0, 0⟩], true, []⟩ 4100 = true :=
  ((cuda_ondevice_free_record ⟨[⟨4096, 1024, true, true, 0, 0⟩], true, []⟩ 4100 0
    ⟨4096, 1024, true, true, 0, 0⟩ (by decide) (by decide)).2.1) rfl rfl

/-- C17: for an address for which `search` finds a device record (in use, or
free) whose base is another address (the address lies strictly inside the
record), `cuda_ondevice` returns true and `cuda_free` fails the assertion
`nptr->ptr == ptr`.  With caching enabled `cuda_free` returns exactly when the
address is the base of the record found for it and that record is a device
record that is not free. -/
theorem cuda_free_interior (m : Mem) (ptr i : Nat) (r : cuda_mem_s)
    (hs : (search m.cuda_mem_list ptr false).1 = some (i, r))
    (hne : r.ptr ≠ ptr) (hd : r.device = true) :
    cuda_ondevice m ptr = true ∧
    cuda_free m ptr = Except.error Fault.assertion ∧
    (m.cuda_memcache = true → ∀ q,
      ((∃ m', cuda_free m q = Except.ok m') ↔
        ∃ k s, (search m.cuda_mem_list q false).1 = some (k, s) ∧ s.ptr = q ∧
          s.device = true ∧ s.free = false)) := by
  obtain ⟨_, hin, _⟩ := search_fst_some _ _ _ i r hs
  have hrange := (inside_p_iff r ptr).mp hin
  have h0 : ptr ≠ 0 := by omega
  refine ⟨?_, ?_, ?_⟩
  · rw [cuda_ondevice_of_found m ptr i r h0 hs, hd]
  · have h1 : (search m.cuda_mem_list ptr (!m.cuda_memcache)).1 = some (i, r) := by
      rw [search_fst_remove]
      exact hs
    unfold cuda_free
    split
    · rename_i heq
      simp [heq] at h1
    · rename_i nptr l' heq
      simp only [heq, Option.some.injEq] at h1
      subst h1
      simp [hne]
  · intro hc q
    constructor
    · rintro ⟨m', hm'⟩
      obtain ⟨k, s, h1, h2, h3, h4, _⟩ := cuda_free_cache_ok m m' q hc hm'
      exact ⟨k, s, h1, h2, h3, h4⟩
    · rintro ⟨k, s, h1, h2, h3, h4⟩
      exact ⟨_, cuda_free_cache m q k s hc h1 h2 h3 h4⟩

/-- Witness of C17: the address 4100 inside the in-use device record at
4096. -/
theorem cuda_free_interior_witness :
    cuda_ondevice ⟨[⟨4096, 1024, true, false, 0, 0⟩], true, []⟩ 4100 = true ∧
    cuda_free ⟨[⟨4096, 1024, true, false, 0, 0⟩], true, []⟩ 4100
      = Except.error Fault.assertion :=
  ⟨(cuda_free_interior ⟨[⟨4096, 1024, true, false, 0, 0⟩], true, []⟩ 4100 0
      ⟨4096, 1024, true, false, 0, 0⟩ (by decide) (by decide) rfl).1,
   (cuda_free_interior ⟨[⟨4096, 1024, true, false, 0, 0⟩], true, []⟩ 4100 0
      ⟨4096, 1024, true, false, 0, 0⟩ (by decide) (by decide) rfl).2.1⟩

/-- C14: in every state reached from the program start by returning calls of
`cuda_malloc`, `cuda_free`, `cuda_hostalloc`, `cuda_hostfree`,
`cuda_memcache_clear` and `cuda_init` (whatever is assumed of the allocators),
every record with `free = true` has `device = true`; a pinned host record is
never free.  A `cuda_malloc` that returns gives either the address that
`cudaMalloc` has just returned or the address of a free device record of the
list, never one taken from a pinned host record; and when the allocators only
return addresses that no registered record holds, the address returned is the
address of no pinned host record. -/
theorem free_records_are_device (fresh : List cuda_mem_s → Nat → Nat → Prop) (m : Mem)
    (hreach : Reachable fresh m) :
    (∀ r ∈ m.cuda_mem_list, r.free = true → r.device = true) ∧
    (∀ r ∈ m.cuda_mem_list, r.device = false → r.free = false) ∧
    (∀ (cudaMalloc : Nat → Option Nat) (th : Thread) (size : Int) (p : Nat) (m' : Mem),
      cuda_malloc cudaMalloc th m size = Except.ok (p, m') →
      (m.cuda_mem_list[ find_free_unsafe th.last_init m.cuda_mem_list (size_t size) (-1)]?
          = none ∧ cudaMalloc (size_t size) = some p) ∨
      (∃ r, m.cuda_mem_list[ find_free_unsafe th.last_init m.cuda_mem_list (size_t size) (-1)]?
          = some r ∧ r.ptr = p ∧ r.device = true ∧ r.free = true)) ∧
    ((∀ l q n, fresh l q n → ∀ r ∈ l, r.ptr ≠ q) →
      ∀ (cudaMalloc : Nat → Option Nat) (th : Thread) (size : Int) (p : Nat) (m' : Mem),
        (∀ q, cudaMalloc (size_t size) = some q → fresh m.cuda_mem_list q (size_t size)) →
        cuda_malloc cudaMalloc th m size = Except.ok (p, m') →
        ∀ h ∈ m.cuda_mem_list, h.device = false → h.ptr ≠ p) := by
  obtain ⟨hc, hinv⟩ := hreach.free_inv
  have hcases : ∀ (cudaMalloc : Nat → Option Nat) (th : Thread) (size : Int) (p : Nat)
      (m' : Mem), cuda_malloc cudaMalloc th m size = Except.ok (p, m') →
      (m.cuda_mem_list[ find_free_unsafe th.last_init m.cuda_mem_list (size_t size) (-1)]?
          = none ∧ cudaMalloc (size_t size) = some p) ∨
      (∃ r, m.cuda_mem_list[ find_free_unsafe th.last_init m.cuda_mem_list (size_t size) (-1)]?
          = some r ∧ r.ptr = p ∧ r.device = true ∧ r.free = true) := by
    intro cudaMalloc th size p m' hcall
    rcases cuda_malloc_cache_ok cudaMalloc th m m' size p hc hcall with
      ⟨r, hg, hd, hp, _⟩ | ⟨hnone, hm, _⟩
    · right
      have hchk := (free_check_p_iff _ _ _ _).mp (find_free_unsafe_some _ _ _ _ r hg)
      exact ⟨r, hg, hp.symm, hd, hchk.1⟩
    · left
      exact ⟨hnone, hm⟩
  refine ⟨fun r hr hfree => (hinv r hr hfree).1, ?_, hcases, ?_⟩
  · intro r hr hd
    cases hfree : r.free with
    | false => rfl
    | true =>
      rw [(hinv r hr hfree).1] at hd
      cases hd
  · intro hfr cudaMalloc th size p m' hfresh hcall h hh hhost
    rcases hcases cudaMalloc th size p m' hcall with ⟨_, hm⟩ | ⟨r, hg, hp, hd, _⟩
    · exact hfr _ _ _ (hfresh p hm) h hh
    · intro hEq
      have hn : (m.cuda_mem_list.map (fun x => x.ptr)).Nodup :=
        Reachable.pairwise_map (fun x => x.ptr) (fun a b => a ≠ b)
          (fun _ _ h1 _ => h1)
          (fun l q n hf _ _ r hr => (hfr l q n hf r hr).symm) hreach
      have hsame : h = r :=
        List.inj_on_of_nodup_map hn hh (List.getElem?_mem hg) (by rw [hEq, hp])
      rw [hsame, hd] at hhost
      cases hhost

/-- Witness of C14: a device buffer allocated and released, then a pinned host
buffer allocated; the only free record is the device record. -/
theorem free_records_are_device_witness :
    Reachable AnyRange
      ⟨[⟨5000, 16, false, false, 0, 0⟩, ⟨1000, 16, true, true, 0, 0⟩], true,
        [DevCall.cudaMalloc 16 1000, DevCall.cudaHostAlloc 16 5000]⟩ ∧
    ∀ r ∈ [(⟨5000, 16, false, false, 0, 0⟩ : cuda_mem_s), ⟨1000, 16, true, true, 0, 0⟩],
      r.free = true → r.device = true := by
  have h1 : Reachable AnyRange
      ⟨[⟨1000, 16, true, false, 0, 0⟩], true, [DevCall.cudaMalloc 16 1000]⟩ :=
    Reachable.malloc (fun _ => some 1000) ⟨0, 0⟩ 16 1000 Reachable.init
      (fun _ _ => True.intro) (by decide)
  have h2 : Reachable AnyRange
      ⟨[⟨1000, 16, true, true, 0, 0⟩], true, [DevCall.cudaMalloc 16 1000]⟩ :=
    Reachable.free 1000 h1 (by decide)
  have h3 : Reachable AnyRange
      ⟨[⟨5000, 16, false, false, 0, 0⟩, ⟨1000, 16, true, true, 0, 0⟩], true,
        [DevCall.cudaMalloc 16 1000, DevCall.cudaHostAlloc 16 5000]⟩ :=
    Reachable.hostalloc (fun _ => some 5000) ⟨0, 0⟩ 16 5000 h2
      (fun _ _ => True.intro) (by decide)
  exact ⟨h3, (free_records_are_device AnyRange _ h3).1⟩

/-- Counterexample to C15 as stated: from the empty registry `cuda_malloc(0)`,
and likewise `cuda_hostalloc(0)`, returns the allocator's address 4096 and
inserts a record of length 0; its range is empty, and `search` finds no record
for 4096. -/
theorem alloc_unique_record_counterexample :
    Reachable RangeFree Mem.init ∧
    RangeFree Mem.init.cuda_mem_list 4096 (size_t 0) ∧
    cuda_malloc (fun _ => some 4096) ⟨0, 0⟩ Mem.init 0
      = Except.ok (4096, ⟨[⟨4096, 0, true, false, 0, 0⟩], true,
          [DevCall.cudaMalloc 0 4096]⟩) ∧
    (search [(⟨4096, 0, true, false, 0, 0⟩ : cuda_mem_s)] 4096 false).1 = none ∧
    cuda_hostalloc (fun _ => some 4096) ⟨0, 0⟩ Mem.init 0
      = Except.ok (4096, ⟨[⟨4096, 0, false, false, 0, 0⟩], true,
          [DevCall.cudaHostAlloc 0 4096]⟩) ∧
    (search [(⟨4096, 0, false, false, 0, 0⟩ : cuda_mem_s)] 4096 false).1 = none := by
  refine ⟨Reachable.init, ?_, by decide, by decide, by decide, by decide⟩
  intro r hr
  simp [Mem.init] at hr

/-- C15, amended: the allocators returning ranges that meet no registered
record, in every reachable state: after `cuda_malloc(size)` has returned `p`
from the cache, or from the runtime for a block of `size` bytes, `size` not 0,
that ends below `2 ^ 64`, and after `cuda_hostalloc(size)` has returned `p` for
such a block, exactly one registered record contains `p` (by the test
`inside_p` of the code); it is the record `search(p, false)` finds and its base
address is `p`. -/
theorem alloc_unique_record (m : Mem) (hreach : Reachable RangeFree m) :
    (∀ (cudaMalloc : Nat → Option Nat) (th : Thread) (size : Int) (p : Nat) (m' : Mem),
      (∀ q, cudaMalloc (size_t size) = some q → RangeFree m.cuda_mem_list q (size_t size)) →
      cuda_malloc cudaMalloc th m size = Except.ok (p, m') →
      ((0 < size_t size ∧ p + size_t size < 2 ^ 64) ∨
        m.cuda_mem_list[ find_free_unsafe th.last_init m.cuda_mem_list (size_t size) (-1)]?
          ≠ none) →
      ∃ i r, (search m'.cuda_mem_list p false).1 = some (i, r) ∧ r.ptr = p ∧
        ∀ j r', m'.cuda_mem_list[j]? = some r' → inside_p r' p = true → j = i) ∧
    (∀ (cudaHostAlloc : Nat → Option Nat) (th : Thread) (N : Int) (p : Nat) (m' : Mem),
      (∀ q, cudaHostAlloc (size_t N) = some q → RangeFree m.cuda_mem_list q (size_t N)) →
      cuda_hostalloc cudaHostAlloc th m N = Except.ok (p, m') →
      (0 < size_t N ∧ p + size_t N < 2 ^ 64) →
      ∃ i r, (search m'.cuda_mem_list p false).1 = some (i, r) ∧ r.ptr = p ∧
        ∀ j r', m'.cuda_mem_list[j]? = some r' → inside_p r' p = true → j = i) := by
  obtain ⟨hc, hinv⟩ := hreach.free_inv
  have hnew : ∀ (n : Nat) (p : Nat) (d : Bool) (th : Thread), 0 < n → p + n < 2 ^ 64 →
      inside_p ⟨p, n, d, false, th.last_init, th.thread_num⟩ p = true := by
    intro n p d th hn hfit
    rw [inside_p_iff_range _ _ (by simp only; exact hfit)]
    simp only
    omega
  constructor
  · intro cudaMalloc th size p m' hfresh hcall hsize
    have hd := (Reachable.malloc cudaMalloc th size p hreach hfresh hcall).disjoint
    rcases cuda_malloc_cache_ok cudaMalloc th m m' size p hc hcall with
      ⟨r, hg, _, hp, rfl⟩ | ⟨hnone, _, rfl⟩
    · have hchk := (free_check_p_iff _ _ _ _).mp (find_free_unsafe_some _ _ _ _ r hg)
      have hin := (hinv r (List.getElem?_mem hg) hchk.1).2
      have hil := (List.getElem?_eq_some.mp hg).1
      rw [← hp] at hin
      obtain ⟨h1, h2⟩ := search_base_of_disjoint _ hd
        ( find_free_unsafe th.last_init m.cuda_mem_list (size_t size) (-1))
        { r with free := false, thread_id := th.thread_num } p
        (by simp only; rw [List.getElem?_set_eq_of_lt _ hil]) hin
      exact ⟨_, _, h1, hp.symm, h2⟩
    · have hlen : 0 < size_t size ∧ p + size_t size < 2 ^ 64 := by
        rcases hsize with h | h
        · exact h
        · exact absurd hnone h
      obtain ⟨h1, h2⟩ := search_base_of_disjoint _ hd 0
        ⟨p, size_t size, true, false, th.last_init, th.thread_num⟩ p
        (by simp [insert]) (hnew _ p true th hlen.1 hlen.2)
      exact ⟨_, _, h1, rfl, h2⟩
  · intro cudaHostAlloc th N p m' hfresh hcall hlen
    have hd := (Reachable.hostalloc cudaHostAlloc th N p hreach hfresh hcall).disjoint
    obtain ⟨_, rfl⟩ := cuda_hostalloc_ok cudaHostAlloc th m m' N p hcall
    obtain ⟨h1, h2⟩ := search_base_of_disjoint _ hd 0
      ⟨p, size_t N, false, false, th.last_init, th.thread_num⟩ p
      (by simp [insert]) (hnew _ p false th hlen.1 hlen.2)
    exact ⟨_, _, h1, rfl, h2⟩

/-- Witness of C15 (amended): with one record at 1000, `cuda_malloc(16)`
returns the allocator's address 2000, which `search` then finds at the head of
the list. -/
theorem alloc_unique_record_witness :
    ∃ i r,
      (search [(⟨2000, 16, true, false, 0, 0⟩ : cuda_mem_s), ⟨1000, 16, true, false, 0, 0⟩]
          2000 false).1 = some (i, r) ∧ r.ptr = 2000 ∧
      ∀ j r',
        [(⟨2000, 16, true, false, 0, 0⟩ : cuda_mem_s), ⟨1000, 16, true, false, 0, 0⟩][j]?
            = some r' →
          inside_p r' 2000 = true → j = i := by
  have h1 : Reachable RangeFree
      ⟨[⟨1000, 16, true, false, 0, 0⟩], true, [DevCall.cudaMalloc 16 1000]⟩ :=
    Reachable.malloc (fun _ => some 1000) ⟨0, 0⟩ 16 1000 Reachable.init
      (by intro q _ r hr; simp [Mem.init] at hr) (by decide)
  have hfresh : ∀ q, (fun _ => some 2000) (size_t 16) = some q →
      RangeFree [(⟨1000, 16, true, false, 0, 0⟩ : cuda_mem_s)] q (size_t 16) := by
    intro q hq r hr x hx
    simp only [Option.some.injEq] at hq
    subst hq
    simp only [List.mem_singleton] at hr
    subst hr
    have h2 := range_of_inside_p _ x hx.1
    have h3 : size_t 16 = 16 := by decide
    simp only [h3] at hx
    simp only at h2
    omega
  exact (alloc_unique_record _ h1).1 (fun _ => some 2000) ⟨0, 0⟩ 16 2000
    ⟨[⟨2000, 16, true, false, 0, 0⟩, ⟨1000, 16, true, false, 0, 0⟩], true,
      [DevCall.cudaMalloc 16 1000, DevCall.cudaMalloc 16 2000]⟩
    hfresh (by decide) (Or.inl (by decide))

/-- C16: the loop of `cuda_memcache_clear` terminates.  It ends after executing
its body once for each record it is to take (free, of the active device, owned
by the caller) and once more: each turn that finds such a record unlinks it,
which lowers their number by one, and the turn that finds none is the last.
At the end the list holds the other records in their order, and `cudaFree` has
been called once for each record taken, in list order, and for no other
address.  This is so whenever the records to take are device records, as the
assertion in the loop body requires and as is the case in every reachable
state; otherwise the loop ends at that assertion. -/
theorem cuda_memcache_clear_loop_turns (th : Thread) (l : List cuda_mem_s)
    (calls : List DevCall) (turns : Nat) :
    (cuda_memcache_clear_loop th l calls turns
      = if (l.filter (swept th)).all (fun r => r.device) then
          Except.ok
            (l.filter (fun r => !swept th r),
              calls ++ (l.filter (swept th)).map (fun r => DevCall.cudaFree r.ptr),
              turns + (l.filter (swept th)).length + 1)
        else Except.error Fault.assertion) ∧
    (∀ (fresh : List cuda_mem_s → Nat → Nat → Prop) (m : Mem),
      Reachable fresh m → m.cuda_mem_list = l →
      (l.filter (swept th)).all (fun r => r.device) = true) ∧
    (∀ r, l[ find_free_unsafe th.last_init l 0 th.thread_num]? = some r →
      swept th r = true ∧
      ((l.eraseIdx ( find_free_unsafe th.last_init l 0 th.thread_num)).filter
          (swept th)).length + 1 = (l.filter (swept th)).length) ∧
    (l[ find_free_unsafe th.last_init l 0 th.thread_num]? = none →
      (l.filter (swept th)).length = 0) := by
  have heq := free_check_p_eq_swept th
  have hnot : (fun r => !free_check_p th.last_init r 0 th.thread_num)
      = (fun r => !swept th r) := by
    funext r
    rw [congrFun heq r]
  refine ⟨?_, ?_, ?_, ?_⟩
  · rw [cuda_memcache_clear_loop_spec th l.length l calls turns rfl, heq, hnot]
  · intro fresh m hreach hl
    subst hl
    rw [List.all_eq_true]
    intro r hr
    simp only [List.mem_filter, swept, Bool.and_eq_true] at hr
    exact (hreach.free_inv.2 r hr.1 hr.2.1.1).1
  · intro r hr
    have h1 := find_free_unsafe_some _ _ _ _ r hr
    have h2 := ( filter_eraseIdx_find_free_unsafe _ _ _ _ r hr).2
    rw [heq] at h2
    refine ⟨by rw [← congrFun heq r]; exact h1, ?_⟩
    rw [h2, List.length_cons]
  · intro hnone
    have hall := find_free_unsafe_none _ _ _ _ hnone
    rw [List.length_eq_zero, List.filter_eq_nil_iff]
    intro a ha
    rw [← congrFun heq a, hall a ha]
    simp

/-- Witness of C16: two records for thread 0 on device 0 to take and one in use
between them; the body runs three times and `cudaFree` is called for 1000 and
for 3000. -/
theorem cuda_memcache_clear_loop_turns_witness :
    cuda_memcache_clear_loop ⟨0, 0⟩
        [⟨1000, 16, true, true, 0, 0⟩, ⟨2000, 16, true, false, 0, 0⟩,
          ⟨3000, 16, true, true, 0, 0⟩] [] 0
      = Except.ok ([⟨2000, 16, true, false, 0, 0⟩],
          [DevCall.cudaFree 1000, DevCall.cudaFree 3000], 3) :=
  (cuda_memcache_clear_loop_turns ⟨0, 0⟩
    [⟨1000, 16, true, true, 0, 0⟩, ⟨2000, 16, true, false, 0, 0⟩,
      ⟨3000, 16, true, true, 0, 0⟩] [] 0).1.trans (by decide)

end Gpuops
